import Mathlib

/-!
# lmListener: frame decoding, channel dispatch and output routing

A shallow embedding of `src/lmListener.cpp`.

* Bytes of the `char` buffers are unsigned 8-bit values (`Byte = Fin 256`), as `char` is on
  the ARM Linux ABI of the Raspberry Pi the program is written for.
* `size_t` is an unsigned integer of `bits` bits; `bits` is a parameter of the definitions
  that subtract `size_t` values.
* A loop of the program is a function that is recursive on a fuel argument and re-evaluates
  the loop guard of the source literally at every step.  Every call site supplies an upper
  bound of the iteration count as fuel; `Fault.outOfFuel` is returned when the guard still
  holds with no fuel left, and the theorems show that this never happens.
* `Fault.undefinedBehaviour` is returned when the program leaves one of its own arrays: a
  store past the end of the six-entry array `ledsInChannel`, a datagram that `Receive`
  stores past the `MAX_SENDBUFFER_SIZE` bytes of `message`, and a pixel read past the end of
  `message`.  The header scan starts at entry 0 and stores entry 6 past `ledsInChannel`, so
  it reads `message` at the offsets 0 to 13 only (`headerScan_chan_cntr_le`).
* Calls into the collaborators (pixel stores into the one-wire buffer, `spiOut.writeLed`,
  `ws2811_render`, `spiOut.send`, `digitalWrite`, `sleep_for`) are recorded as `Event`s in
  program order.  Values that come from the collaborators (`PeekReceive`, `Receive`,
  `ws2811_render`, loads of the atomic flag `isWS`) are inputs of the model.
-/

namespace LmListener

/-! ## Constants -/

/-- An unsigned 8-bit value: one `char` of a receive buffer. -/
abbrev Byte := Fin 256

def MAX_CHANNELS : Nat := 2
def LED_COUNT_WS : Nat := 1000
def LED_COUNT_SPI : Nat := 2000
def MAX_SENDBUFFER_SIZE : Nat := 4096 * 3

def PIN_SWITCH_1 : Nat := 5
def PIN_SWITCH_2 : Nat := 6
def PIN_SWITCH_SPI : Nat := 24

/-- The enumerators of `enum { TYPE_WS281X, TYPE_SK9822 }`. -/
def TYPE_WS281X : Int := 0
def TYPE_SK9822 : Int := 1

/-- Number of entries of `uint16_t ledsInChannel[] = { 0, 0, 0, 0, 0, 0 }`. -/
def LEDS_IN_CHANNEL_LEN : Nat := 6

/-! ## Faults and events -/

inductive Fault where
  | undefinedBehaviour
  | outOfFuel
deriving DecidableEq

/-- The calls main makes into its collaborators, in program order.  `high = true` is `HIGH`. -/
inductive Event where
  | wsLed (channel index value : Nat)
  | spiWriteLed (channel index r g b : Nat)
  | wsRender
  | digitalWrite (pin : Nat) (high : Bool)
  | spiSend (channel count : Nat)
  | sleepUs (us : Nat)
deriving DecidableEq

/-- The sink channel a pixel write goes to (`none` for the other events). -/
def Event.pixelChannel : Event → Option Nat
  | .wsLed c _ _ => some c
  | .spiWriteLed c _ _ _ _ => some c
  | _ => none

/-- The index inside the sink channel a pixel write goes to. -/
def Event.pixelIndex : Event → Option Nat
  | .wsLed _ j _ => some j
  | .spiWriteLed _ j _ _ _ => some j
  | _ => none

/-- Per-channel capacity of the sink a pixel write goes to. -/
def Event.sinkCapacity : Event → Option Nat
  | .wsLed _ _ _ => some LED_COUNT_WS
  | .spiWriteLed _ _ _ _ _ => some LED_COUNT_SPI
  | _ => none

/-- The sink indices written to `channel`, in program order. -/
def pixelIndicesOf (channel : Nat) (out : List Event) : List Nat :=
  (out.filter (fun e => e.pixelChannel == some channel)).filterMap Event.pixelIndex

/-! ## GpioOutSwitcher -/

/-- The switcher with the hardware it drives: `m_isWs`, the levels of `PIN_SWITCH_1` and
`PIN_SWITCH_2` (`true` is `HIGH`), the number of `digitalWrite` calls it has made and the
time it has slept, in milliseconds. -/
structure GpioOutSwitcher where
  m_isWs : Bool
  pinSwitch1 : Bool
  pinSwitch2 : Bool
  pinWrites : Nat
  sleptMs : Nat
deriving DecidableEq

def GpioOutSwitcher.switchWsOut (g : GpioOutSwitcher) (isWS : Bool) : GpioOutSwitcher :=
  if g.m_isWs = isWS then g
  else
    { m_isWs := isWS
      pinSwitch1 := if isWS then false else true
      pinSwitch2 := if isWS then false else true
      pinWrites := g.pinWrites + 2
      sleptMs := g.sleptMs + 500 }

/-- The constructor: `m_isWs(false)` followed by `switchWsOut(true)`, on pins at the given
levels. -/
def GpioOutSwitcher.new (pinSwitch1 pinSwitch2 : Bool) : GpioOutSwitcher :=
  GpioOutSwitcher.switchWsOut
    { m_isWs := false, pinSwitch1 := pinSwitch1, pinSwitch2 := pinSwitch2,
      pinWrites := 0, sleptMs := 0 } true

/-! ## The control listener -/

/-- The bytes of an ASCII string literal. -/
def ascii (s : String) : List Byte := s.toList.map (fun c => Fin.ofNat c.toNat)

/-- Initial contents of `s_ledTypeToEnum`. -/
def s_ledTypeToEnum : List (List Byte × Int) :=
  [(ascii "WS281X", TYPE_WS281X), (ascii "SK9822", TYPE_SK9822)]

/-- `std::map::operator[]`: the mapped value of `key`; a key that is absent is first inserted
with a value-initialised (zero) mapped value. -/
def mapIndex (m : List (List Byte × Int)) (key : List Byte) : List (List Byte × Int) × Int :=
  match m.lookup key with
  | some v => (m, v)
  | none => (m ++ [(key, 0)], 0)

/-- The state of the `typeListener` thread: `currentType` and the map. -/
structure TypeListener where
  currentType : List Byte
  ledTypeToEnum : List (List Byte × Int)
deriving DecidableEq

def TypeListener.init : TypeListener :=
  { currentType := [], ledTypeToEnum := s_ledTypeToEnum }

/-- One iteration of the `while` loop of `typeListener`.  `ret` is what
`typeInput.Receive(message, 6)` returned and `message` the buffer it filled.  The second
component is the value passed to `isWS.store`, when there is a store. -/
def TypeListener.step (st : TypeListener) (ret : Int) (message : List Byte) :
    TypeListener × Option Bool :=
  if ret < 6 then (st, none)
  else
    let type := message.take 6
    if st.currentType ≠ type then
      let r := mapIndex st.ledTypeToEnum type
      ({ currentType := type, ledTypeToEnum := r.1 }, some (r.2 == TYPE_WS281X))
    else (st, none)

/-- The listener after a sequence of `(ret, message)` receptions. -/
def TypeListener.run (st : TypeListener) : List (Int × List Byte) → TypeListener
  | [] => st
  | (ret, message) :: rest => TypeListener.run (st.step ret message).1 rest

/-! ## The main loop -/

/-- The local variables of `main` that live across loop iterations.  `message` gives the
byte at an offset from the start of the buffer `char message[MAX_SENDBUFFER_SIZE]`; a store
or a pixel read at an offset of `MAX_SENDBUFFER_SIZE` or more is a fault of `Receive` and of
`pixelLoop`.  `pixels` is the offset of the pointer `pixels` from the start of `message`. -/
structure MainState where
  received : Nat
  i : Nat
  total_leds_num : Nat
  max_leds_in_chan : Nat
  chan_cntr : Nat
  curChannel : Nat
  headerByteOffset : Nat
  chanPixelOffset : Nat
  ledsInChannel : Nat → Nat
  pixels : Nat
  message : Nat → Byte
  gpioSwitcher : GpioOutSwitcher

/-- What one loop iteration gets from outside.
* `isWSRoute`: the load of `isWS` passed to `switchWsOut`;
* `peek`: the value of `frameInput.PeekReceive()` as stored in the `size_t` variable
  `received`, the length of the pending datagram;
* `recvRet`: the value of `frameInput.Receive(message, received)`;
* `dgram`: the bytes `Receive` stores at the start of `message`;
* `isWSPixel curChannel i`: the load of `isWS` in the pixel loop;
* `isWSOut`: the load of `isWS` that selects render or send;
* `renderOk`: whether `ws2811_render` returns `WS2811_SUCCESS`. -/
structure Inputs where
  isWSRoute : Bool
  peek : Nat
  recvRet : Int
  dgram : List Byte
  isWSPixel : Nat → Nat → Bool
  isWSOut : Bool
  renderOk : Bool

/-- The bytes of the buffer once `dgram` is stored at its start; the bytes behind the
datagram keep what they held. -/
def stored (message : Nat → Byte) (dgram : List Byte) : Nat → Byte :=
  fun i => if h : i < dgram.length then dgram[i] else message i

/-- Modelled from the spec: `UdpManager::Receive`, whose source is not part of `src/`.  The
datagram is consumed fully into the fixed-capacity buffer `char message[MAX_SENDBUFFER_SIZE]`:
`Receive` stores `dgram` at the start of `message`.  A datagram longer than the array is a
store past its end. -/
def Receive (message : Nat → Byte) (dgram : List Byte) : Except Fault (Nat → Byte) :=
  if dgram.length ≤ MAX_SENDBUFFER_SIZE then .ok (stored message dgram)
  else .error .undefinedBehaviour

/-- Subtraction of `size_t` values of `bits` bits. -/
def sizeSub (bits a b : Nat) : Nat := (a + 2 ^ bits - b % 2 ^ bits) % 2 ^ bits

/-- The header scan, lines 229-236.  The store of entry 6 is a store past `ledsInChannel`. -/
def headerScan : Nat → MainState → Except Fault MainState
  | fuel, s =>
    if s.chan_cntr + 1 < s.received
        ∧ (s.message (s.chan_cntr * 2) ≠ 0xff ∧ s.message (s.chan_cntr * 2 + 1) ≠ 0xff) then
      match fuel with
      | 0 => .error .outOfFuel
      | fuel + 1 =>
        if s.chan_cntr < LEDS_IN_CHANNEL_LEN then
          let v := (((s.message (s.chan_cntr * 2 + 1)).val <<< 8)
                      ||| (s.message (s.chan_cntr * 2)).val) % 2 ^ 16
          let s1 := { s with ledsInChannel := Function.update s.ledsInChannel s.chan_cntr v }
          let s2 := if s1.ledsInChannel s1.chan_cntr > s1.max_leds_in_chan
                    then { s1 with max_leds_in_chan := s1.ledsInChannel s1.chan_cntr } else s1
          headerScan fuel { s2 with chan_cntr := s2.chan_cntr + 1 }
        else .error .undefinedBehaviour
    else .ok s

/-- The pixel write of lines 257-265 for the current `curChannel` and `i`. -/
def pixelEvent (isWS : Nat → Nat → Bool) (s : MainState) : Event :=
  if isWS s.curChannel s.i then
    .wsLed s.curChannel (s.i - s.chanPixelOffset)
      ((((s.message (s.pixels + (s.i * 3 + 0))).val <<< 16)
        ||| ((s.message (s.pixels + (s.i * 3 + 1))).val <<< 8)
        ||| (s.message (s.pixels + (s.i * 3 + 2))).val) % 2 ^ 32)
  else
    .spiWriteLed s.curChannel (s.i - s.chanPixelOffset)
      (s.message (s.pixels + (s.i * 3 + 0))).val
      (s.message (s.pixels + (s.i * 3 + 1))).val
      (s.message (s.pixels + (s.i * 3 + 2))).val

/-- The inner loop, lines 250-266, from the current value of `i`.  The body reads
`pixels[i * 3 + 0]`, `pixels[i * 3 + 1]` and `pixels[i * 3 + 2]`; the last of them has to
lie inside `message`. -/
def pixelLoop (isWS : Nat → Nat → Bool) :
    Nat → MainState → List Event → Except Fault (MainState × List Event)
  | fuel, s, out =>
    if s.i < s.ledsInChannel s.curChannel + s.chanPixelOffset ∧ s.i < s.total_leds_num then
      match fuel with
      | 0 => .error .outOfFuel
      | fuel + 1 =>
        if s.pixels + (s.i * 3 + 2) < MAX_SENDBUFFER_SIZE then
          pixelLoop isWS fuel { s with i := s.i + 1 } (out ++ [pixelEvent isWS s])
        else .error .undefinedBehaviour
    else .ok (s, out)

/-- The outer loop, lines 249-268, from the current value of `curChannel`. -/
def channelLoop (isWS : Nat → Nat → Bool) :
    Nat → MainState → List Event → Except Fault (MainState × List Event)
  | fuel, s, out =>
    if s.curChannel < s.chan_cntr then
      match fuel with
      | 0 => .error .outOfFuel
      | fuel + 1 =>
        match pixelLoop isWS (s.ledsInChannel s.curChannel) { s with i := s.chanPixelOffset } out with
        | .error f => .error f
        | .ok (s1, out1) =>
          let s2 := { s1 with chanPixelOffset := s1.chanPixelOffset + s1.ledsInChannel s1.curChannel }
          channelLoop isWS fuel { s2 with curChannel := s2.curChannel + 1 } out1
    else .ok (s, out)

/-- Header decode and dispatch, lines 225-268. -/
def decodeAndDispatch (bits : Nat) (isWS : Nat → Nat → Bool) (s : MainState) :
    Except Fault (MainState × List Event) :=
  let s := { s with chan_cntr := 0 }
  let s := { s with max_leds_in_chan := 0 }
  match headerScan s.received s with
  | .error f => .error f
  | .ok s =>
    let s := { s with headerByteOffset := s.chan_cntr * 2 + 2 }
    let s := { s with pixels := s.headerByteOffset }
    let s := if s.chan_cntr > MAX_CHANNELS then { s with chan_cntr := MAX_CHANNELS } else s
    let s := { s with total_leds_num := sizeSub bits s.received s.headerByteOffset / 3 }
    let s := { s with chanPixelOffset := 0 }
    channelLoop isWS s.chan_cntr { s with curChannel := 0 } []

/-- The send loop of the serial-bus path, lines 279-284. -/
def sendLoop : Nat → MainState → List Event → Except Fault (MainState × List Event)
  | fuel, s, out =>
    if s.curChannel < s.chan_cntr then
      match fuel with
      | 0 => .error .outOfFuel
      | fuel + 1 =>
        if s.ledsInChannel s.curChannel = 0 then
          sendLoop fuel { s with curChannel := s.curChannel + 1 } out
        else
          sendLoop fuel { s with curChannel := s.curChannel + 1 }
            (out ++ [.digitalWrite PIN_SWITCH_SPI (if s.curChannel = 0 then true else false),
                     .spiSend s.curChannel (s.ledsInChannel s.curChannel)])
    else .ok (s, out)

/-- Render or send, then the pacing sleep, lines 270-286.  The Boolean is false when the
loop is left by `break`. -/
def renderAndPace (inp : Inputs) (s : MainState) (out : List Event) :
    Except Fault (MainState × List Event × Bool) :=
  if inp.isWSOut then
    if ¬ inp.renderOk then .ok (s, out ++ [.wsRender], false)
    else .ok (s, out ++ [.wsRender, .sleepUs (30 * s.max_leds_in_chan)], true)
  else
    match sendLoop s.chan_cntr { s with curChannel := 0 } out with
    | .error f => .error f
    | .ok (s1, out1) => .ok (s1, out1 ++ [.sleepUs s1.max_leds_in_chan], true)

/-- One iteration of the `while (continue_looping.load())` loop, lines 216-288. -/
def loopBody (bits : Nat) (inp : Inputs) (s : MainState) :
    Except Fault (MainState × List Event × Bool) :=
  let s := { s with gpioSwitcher := s.gpioSwitcher.switchWsOut inp.isWSRoute }
  let s := { s with received := inp.peek }
  if s.received > 4 then
    if inp.recvRet ≤ 0 then .ok (s, [], true)
    else
      match Receive s.message inp.dgram with
      | .error f => .error f
      | .ok message =>
        let s := { s with message := message }
        match decodeAndDispatch bits inp.isWSPixel s with
        | .error f => .error f
        | .ok (s1, out1) => renderAndPace inp s1 out1
  else .ok (s, [], true)

/-! ## Frames -/

/-- A frame with a header of `n` entries: longer than 4 bytes, at most six entries, no 0xFF
byte among the first `2 * n` bytes, and the two bytes after them both 0xFF. -/
def WellFormed (dgram : List Byte) (n : Nat) : Prop :=
  n ≤ 6 ∧ 4 < dgram.length ∧ 2 * n + 2 ≤ dgram.length
    ∧ (∀ i, i < 2 * n → dgram.getD i 0 ≠ 0xff)
    ∧ dgram.getD (2 * n) 0 = 0xff ∧ dgram.getD (2 * n + 1) 0 = 0xff

instance (dgram : List Byte) (n : Nat) : Decidable (WellFormed dgram n) := by
  unfold WellFormed; infer_instance

/-- The LED count the header entry `k` of a datagram declares. -/
def declared (dgram : List Byte) (k : Nat) : Nat :=
  (dgram.getD (2 * k) 0).val + 256 * (dgram.getD (2 * k + 1) 0).val

/-- A state of `main` whose buffer holds zero bytes, for closed examples. -/
def MainState.zero : MainState :=
  { received := 0, i := 0, total_leds_num := 0, max_leds_in_chan := 0, chan_cntr := 0,
    curChannel := 0, headerByteOffset := 0, chanPixelOffset := 0, ledsInChannel := fun _ => 0,
    pixels := 0, message := fun _ => 0,
    gpioSwitcher := GpioOutSwitcher.new false false }

/-- The state with the length of `dgram` in `received` and `dgram` at the start of the
buffer. -/
def MainState.holding (s : MainState) (dgram : List Byte) : MainState :=
  { s with received := dgram.length, message := stored s.message dgram }

/-- The state in which `decodeAndDispatch` runs after `PeekReceive` has returned the length
of `dgram` and `Receive` has stored it. -/
def MainState.afterReceive (s : MainState) (dgram : List Byte) : Except Fault MainState :=
  match Receive s.message dgram with
  | .error f => .error f
  | .ok message => .ok { s with received := dgram.length, message := message }

/-- The receive of `dgram` (lines 221-222) followed by header decode and dispatch
(lines 225-268). -/
def receiveAndDispatch (bits : Nat) (isWS : Nat → Nat → Bool) (s : MainState)
    (dgram : List Byte) : Except Fault (MainState × List Event) :=
  match s.afterReceive dgram with
  | .error f => .error f
  | .ok s0 => decodeAndDispatch bits isWS s0

/-! ## Specification-side notions -/

/-- The guard of the header scan at entry `j`. -/
def scanGuard (message : Nat → Byte) (received j : Nat) : Prop :=
  j + 1 < received ∧ (message (j * 2) ≠ 0xff ∧ message (j * 2 + 1) ≠ 0xff)

instance (message : Nat → Byte) (received j : Nat) : Decidable (scanGuard message received j) := by
  unfold scanGuard; infer_instance

/-- The scan passes the entries below `n` and stops at entry `n`. -/
def ScanStops (message : Nat → Byte) (received n : Nat) : Prop :=
  (∀ j, j < n → scanGuard message received j) ∧ ¬ scanGuard message received n

instance (message : Nat → Byte) (received n : Nat) : Decidable (ScanStops message received n) := by
  unfold ScanStops; infer_instance

/-- The value the scan stores for entry `k`. -/
def entryValue (message : Nat → Byte) (k : Nat) : Nat :=
  (message (k * 2)).val + 256 * (message (k * 2 + 1)).val

/-- The pixel write for loop index `i` of channel `k`, whose window starts at triple `off`,
read from `message` at byte offset `pixels`. -/
def pixelAt (isWS : Nat → Nat → Bool) (message : Nat → Byte) (pixels k off i : Nat) : Event :=
  if isWS k i then
    .wsLed k (i - off)
      ((message (pixels + (i * 3 + 0))).val * 65536 + (message (pixels + (i * 3 + 1))).val * 256
        + (message (pixels + (i * 3 + 2))).val)
  else
    .spiWriteLed k (i - off) (message (pixels + (i * 3 + 0))).val
      (message (pixels + (i * 3 + 1))).val (message (pixels + (i * 3 + 2))).val

/-- The writes of one pass of the inner loop for channel `k`: `count` LEDs declared, window
starting at triple `off`, `total` triples in the payload. -/
def channelEvents (isWS : Nat → Nat → Bool) (message : Nat → Byte) (pixels total : Nat)
    (k count off : Nat) : List Event :=
  (List.range (min (count + off) total - off)).map
    (fun j => pixelAt isWS message pixels k off (off + j))

/-- The writes of `m` passes of the outer loop, from channel `k` with offset `off`. -/
def dispatchEvents (isWS : Nat → Nat → Bool) (message : Nat → Byte) (pixels total : Nat)
    (leds : Nat → Nat) : Nat → Nat → Nat → List Event
  | 0, _, _ => []
  | m + 1, k, off =>
    channelEvents isWS message pixels total k (leds k) off
      ++ dispatchEvents isWS message pixels total leds m (k + 1) (off + leds k)

/-- The pixel reads of `m` passes of the outer loop, from channel `k` with offset `off`, lie
inside `message`: a pass that reads at all ends its reads at or before the end of the array. -/
def dispatchInBounds (pixels total : Nat) (leds : Nat → Nat) : Nat → Nat → Nat → Prop
  | 0, _, _ => True
  | m + 1, k, off =>
    (off < min (leds k + off) total →
        pixels + 3 * min (leds k + off) total ≤ MAX_SENDBUFFER_SIZE)
      ∧ dispatchInBounds pixels total leds m (k + 1) (off + leds k)

/-- Number of whole RGB triples behind a header of `n` entries. -/
def payloadTriples (dgram : List Byte) (n : Nat) : Nat := (dgram.length - (2 * n + 2)) / 3

/-- The sum of the LED counts declared for the channels before `k`. -/
def offsetOf (dgram : List Byte) (k : Nat) : Nat := ((List.range k).map (declared dgram)).sum

/-- The byte at position `p` of the payload behind a header of `n` entries. -/
def payloadByte (dgram : List Byte) (n p : Nat) : Nat := (dgram.getD (2 * n + 2 + p) 0).val

/-- The pixel write for index `j` of channel `k`, whose read window starts at triple `off`
of the payload. -/
def framePixel (isWS : Nat → Nat → Bool) (dgram : List Byte) (n k off j : Nat) : Event :=
  if isWS k (off + j) then
    .wsLed k j (payloadByte dgram n (3 * (off + j)) * 65536
      + payloadByte dgram n (3 * (off + j) + 1) * 256 + payloadByte dgram n (3 * (off + j) + 2))
  else
    .spiWriteLed k j (payloadByte dgram n (3 * (off + j)))
      (payloadByte dgram n (3 * (off + j) + 1)) (payloadByte dgram n (3 * (off + j) + 2))

/-- The number of pixels written to channel `k`. -/
def writeCount (dgram : List Byte) (n k : Nat) : Nat :=
  min (declared dgram k) (payloadTriples dgram n - offsetOf dgram k)

/-- The writes to channel `k`, in order. -/
def frameChannelEvents (isWS : Nat → Nat → Bool) (dgram : List Byte) (n k : Nat) : List Event :=
  (List.range (writeCount dgram n k)).map (framePixel isWS dgram n k (offsetOf dgram k))

/-- All writes of the dispatch of a well-formed frame, in order. -/
def frameEvents (isWS : Nat → Nat → Bool) (dgram : List Byte) (n : Nat) : List Event :=
  (List.range (min n MAX_CHANNELS)).flatMap (frameChannelEvents isWS dgram n)

/-- The map sends "SK9822" to `TYPE_SK9822` and every other key it holds to `TYPE_WS281X`:
what `s_ledTypeToEnum` satisfies at the start and after every `operator[]`. -/
def MapOk (m : List (List Byte × Int)) : Prop :=
  m.lookup (ascii "SK9822") = some TYPE_SK9822
    ∧ ∀ key v, m.lookup key = some v → key ≠ ascii "SK9822" → v = TYPE_WS281X

/-! ## Concrete frames -/

/-- Counts 10 and 5, terminator, two triples. -/
def headerParseFrame : List Byte := [0x0A, 0x00, 0x05, 0x00, 0xFF, 0xFF, 1, 2, 3, 4, 5, 6]

/-- Four entries (3, 2, 7, 1), terminator, two triples. -/
def fourEntryFrame : List Byte :=
  [0x03, 0x00, 0x02, 0x00, 0x07, 0x00, 0x01, 0x00, 0xFF, 0xFF, 1, 2, 3, 4, 5, 6]

/-- Counts 100 and 7, terminator, ten triples. -/
def truncatedFrame : List Byte :=
  [100, 0, 7, 0, 0xFF, 0xFF,
   1, 1, 1, 2, 2, 2, 3, 3, 3, 4, 4, 4, 5, 5, 5, 6, 6, 6, 7, 7, 7, 8, 8, 8, 9, 9, 9, 10, 10, 10]

/-- Counts 1 and 2, terminator, three triples. -/
def twoChannelFrame : List Byte := [1, 0, 2, 0, 0xFF, 0xFF, 11, 12, 13, 21, 22, 23, 31, 32, 33]

/-- First header pair 0xFF 0x00, then an entry, a 0xFFFF pair and one triple. -/
def sentinelAtStartFrame : List Byte := [0xFF, 0x00, 0x03, 0x00, 0xFF, 0xFF, 1, 2, 3]

/-- Declared counts 255 (bytes 0xFF 0x00) and 1, the 0xFFFF terminator, one triple. -/
def count255Frame : List Byte := [0xFF, 0x00, 0x01, 0x00, 0xFF, 0xFF, 1, 2, 3]

/-- Count 2000 (bytes 0xD0 0x07), terminator, 2000 triples of zero bytes. -/
def overCapacityFrame : List Byte := [0xD0, 0x07, 0xFF, 0xFF] ++ List.replicate 6000 0

/-- Five bytes, none of them 0xFF. -/
def shortFrame : List Byte := [1, 0, 1, 0, 1]

/-- Inputs of an iteration in which `PeekReceive` reports a four-byte datagram. -/
def tooShortInputs : Inputs :=
  { isWSRoute := false, peek := 4, recvRet := 4, dgram := [1, 0, 0xFF, 0xFF],
    isWSPixel := fun _ _ => false, isWSOut := false, renderOk := true }

/-! ## Arithmetic of the byte compositions -/

theorem le16_eq (b0 b1 : Byte) :
    ((b1.val <<< 8) ||| b0.val) % 2 ^ 16 = b0.val + 256 * b1.val := by
  have h0 := b0.isLt
  have h1 := b1.isLt
  have h : (b1.val <<< 8) ||| b0.val = 2 ^ 8 * b1.val + b0.val := by
    rw [Nat.shiftLeft_eq, Nat.mul_comm, Nat.mul_add_lt_is_or (by omega)]
  rw [h]
  omega

theorem rgb24_eq (r g b : Byte) :
    ((r.val <<< 16) ||| (g.val <<< 8) ||| b.val) % 2 ^ 32
      = r.val * 65536 + g.val * 256 + b.val := by
  have hr := r.isLt
  have hg := g.isLt
  have hb := b.isLt
  have h1 : (r.val <<< 16) ||| (g.val <<< 8) = 2 ^ 16 * r.val + g.val * 2 ^ 8 := by
    rw [Nat.shiftLeft_eq, Nat.shiftLeft_eq, Nat.mul_comm r.val, Nat.mul_add_lt_is_or (by omega)]
  have h2 : (2 ^ 16 * r.val + g.val * 2 ^ 8) ||| b.val
      = 2 ^ 8 * (2 ^ 8 * r.val + g.val) + b.val := by
    have e : 2 ^ 16 * r.val + g.val * 2 ^ 8 = 2 ^ 8 * (2 ^ 8 * r.val + g.val) := by omega
    rw [e]
    exact (Nat.mul_add_lt_is_or (by omega) _).symm
  rw [h1, h2]
  omega

theorem sizeSub_of_le {bits a b : Nat} (hba : b ≤ a) (ha : a < 2 ^ bits) :
    sizeSub bits a b = a - b := by
  unfold sizeSub
  have hb : b % 2 ^ bits = b := Nat.mod_eq_of_lt (by omega)
  rw [hb]
  have : a + 2 ^ bits - b = (a - b) + 2 ^ bits := by omega
  rw [this, Nat.add_mod_right]
  exact Nat.mod_eq_of_lt (by omega)

theorem stored_lt (message : Nat → Byte) (dgram : List Byte) {i : Nat} (h : i < dgram.length) :
    stored message dgram i = dgram.getD i 0 := by
  simp [stored, h, List.getD_eq_getElem?_getD, List.getElem?_eq_getElem]

theorem stored_ge (message : Nat → Byte) (dgram : List Byte) {i : Nat} (h : dgram.length ≤ i) :
    stored message dgram i = message i := by
  simp [stored, Nat.not_lt.2 h]

theorem Receive_ok (message : Nat → Byte) (dgram : List Byte)
    (h : dgram.length ≤ MAX_SENDBUFFER_SIZE) :
    Receive message dgram = .ok (stored message dgram) := by
  unfold Receive
  rw [if_pos h]

theorem Receive_overflow (message : Nat → Byte) (dgram : List Byte)
    (h : MAX_SENDBUFFER_SIZE < dgram.length) :
    Receive message dgram = .error .undefinedBehaviour := by
  unfold Receive
  rw [if_neg (by omega)]

theorem afterReceive_ok (s : MainState) (dgram : List Byte)
    (h : dgram.length ≤ MAX_SENDBUFFER_SIZE) :
    s.afterReceive dgram = .ok (s.holding dgram) := by
  unfold MainState.afterReceive
  rw [Receive_ok s.message dgram h]
  rfl

theorem receiveAndDispatch_ok (bits : Nat) (isWS : Nat → Nat → Bool) (s : MainState)
    (dgram : List Byte) (h : dgram.length ≤ MAX_SENDBUFFER_SIZE) :
    receiveAndDispatch bits isWS s dgram = decodeAndDispatch bits isWS (s.holding dgram) := by
  unfold receiveAndDispatch
  rw [afterReceive_ok s dgram h]

/-- A datagram longer than the buffer `message` is a store past its end. -/
theorem receiveAndDispatch_overflow (bits : Nat) (isWS : Nat → Nat → Bool) (s : MainState)
    (dgram : List Byte) (h : MAX_SENDBUFFER_SIZE < dgram.length) :
    receiveAndDispatch bits isWS s dgram = .error .undefinedBehaviour := by
  unfold receiveAndDispatch MainState.afterReceive
  rw [Receive_overflow s.message dgram h]

/-! ## The header scan -/

theorem headerScan_stop (fuel : Nat) (s : MainState)
    (h : ¬ scanGuard s.message s.received s.chan_cntr) : headerScan fuel s = .ok s := by
  have h' : ¬ (s.chan_cntr + 1 < s.received
      ∧ (s.message (s.chan_cntr * 2) ≠ 0xff ∧ s.message (s.chan_cntr * 2 + 1) ≠ 0xff)) := h
  unfold headerScan
  rw [if_neg h']

theorem headerScan_step (fuel : Nat) (s : MainState)
    (h : scanGuard s.message s.received s.chan_cntr) (hc : s.chan_cntr < LEDS_IN_CHANNEL_LEN) :
    headerScan (fuel + 1) s
      = headerScan fuel
          { s with
            ledsInChannel :=
              Function.update s.ledsInChannel s.chan_cntr (entryValue s.message s.chan_cntr)
            max_leds_in_chan := max s.max_leds_in_chan (entryValue s.message s.chan_cntr)
            chan_cntr := s.chan_cntr + 1 } := by
  have h' : s.chan_cntr + 1 < s.received
      ∧ (s.message (s.chan_cntr * 2) ≠ 0xff ∧ s.message (s.chan_cntr * 2 + 1) ≠ 0xff) := h
  conv_lhs => unfold headerScan
  rw [if_pos h']
  simp only [if_pos hc, le16_eq, Function.update_same]
  by_cases hv : entryValue s.message s.chan_cntr > s.max_leds_in_chan
  · have hm : max s.max_leds_in_chan (entryValue s.message s.chan_cntr)
        = entryValue s.message s.chan_cntr := by omega
    have hv' : (s.message (s.chan_cntr * 2)).val + 256 * (s.message (s.chan_cntr * 2 + 1)).val
        > s.max_leds_in_chan := hv
    rw [hm]
    simp only [if_pos hv']
    rfl
  · have hm : max s.max_leds_in_chan (entryValue s.message s.chan_cntr)
        = s.max_leds_in_chan := by omega
    have hv' : ¬ (s.message (s.chan_cntr * 2)).val + 256 * (s.message (s.chan_cntr * 2 + 1)).val
        > s.max_leds_in_chan := hv
    rw [hm]
    simp only [if_neg hv']
    rfl

theorem headerScan_run (m : Nat) : ∀ (fuel : Nat) (s : MainState), m ≤ fuel →
    s.chan_cntr + m ≤ LEDS_IN_CHANNEL_LEN →
    (∀ j, s.chan_cntr ≤ j → j < s.chan_cntr + m → scanGuard s.message s.received j) →
    ¬ scanGuard s.message s.received (s.chan_cntr + m) →
    ∃ leds mx, headerScan fuel s
        = .ok { s with chan_cntr := s.chan_cntr + m, ledsInChannel := leds,
                       max_leds_in_chan := mx }
      ∧ (∀ k, s.chan_cntr ≤ k → k < s.chan_cntr + m → leds k = entryValue s.message k)
      ∧ (∀ k, k < s.chan_cntr → leds k = s.ledsInChannel k)
      ∧ (∀ k, s.chan_cntr + m ≤ k → leds k = s.ledsInChannel k)
      ∧ s.max_leds_in_chan ≤ mx
      ∧ (∀ k, s.chan_cntr ≤ k → k < s.chan_cntr + m → leds k ≤ mx)
      ∧ (mx = s.max_leds_in_chan ∨ ∃ k, s.chan_cntr ≤ k ∧ k < s.chan_cntr + m ∧ mx = leds k) := by
  induction m with
  | zero =>
    intro fuel s _ _ _ hstop
    refine ⟨s.ledsInChannel, s.max_leds_in_chan, ?_, ?_, ?_, ?_, ?_, ?_, ?_⟩
    · exact headerScan_stop fuel s hstop
    · intro k h1 h2; omega
    · intro k _; rfl
    · intro k _; rfl
    · exact Nat.le_refl _
    · intro k h1 h2; omega
    · exact Or.inl rfl
  | succ m ih =>
    intro fuel s hfuel hcap hpass hstop
    obtain ⟨fuel, rfl⟩ : ∃ f, fuel = f + 1 := ⟨fuel - 1, by omega⟩
    have hc : s.chan_cntr < LEDS_IN_CHANNEL_LEN := by omega
    rw [headerScan_step fuel s (hpass s.chan_cntr (Nat.le_refl _) (by omega)) hc]
    obtain ⟨leds, mx, hrun, hnew, hold, hhigh, hmx, hle, hmax⟩ :=
      ih fuel
        { s with
          ledsInChannel :=
            Function.update s.ledsInChannel s.chan_cntr (entryValue s.message s.chan_cntr)
          max_leds_in_chan := max s.max_leds_in_chan (entryValue s.message s.chan_cntr)
          chan_cntr := s.chan_cntr + 1 }
        (by omega) (by simp only; omega)
        (fun j h1 h2 => hpass j (by simp only at h1; omega) (by simp only at h2; omega))
        (by simpa only [Nat.add_assoc, Nat.add_comm 1 m] using hstop)
    simp only at hnew hold hhigh hmx hle hmax
    have hcur : leds s.chan_cntr = entryValue s.message s.chan_cntr := by
      rw [hold s.chan_cntr (by omega), Function.update_same]
    refine ⟨leds, mx, ?_, ?_, ?_, ?_, ?_, ?_, ?_⟩
    · rw [hrun]
      simp only [Nat.add_assoc, Nat.add_comm 1 m]
    · intro k h1 h2
      by_cases hk : k = s.chan_cntr
      · rw [hk]; exact hcur
      · exact hnew k (by omega) (by omega)
    · intro k hk
      rw [hold k (by omega), Function.update_noteq (by omega)]
    · intro k hk
      rw [hhigh k (by omega), Function.update_noteq (by omega)]
    · omega
    · intro k h1 h2
      by_cases hk : k = s.chan_cntr
      · rw [hk, hcur]; omega
      · exact hle k (by omega) (by omega)
    · rcases hmax with h | ⟨k, h1, h2, h3⟩
      · by_cases hv : entryValue s.message s.chan_cntr > s.max_leds_in_chan
        · exact Or.inr ⟨s.chan_cntr, Nat.le_refl _, by omega, by rw [hcur, h]; omega⟩
        · exact Or.inl (by rw [h]; omega)
      · exact Or.inr ⟨k, by omega, by omega, h3⟩

/-! ## The dispatch loops -/

theorem pixelEvent_eq (isWS : Nat → Nat → Bool) (s : MainState) :
    pixelEvent isWS s = pixelAt isWS s.message s.pixels s.curChannel s.chanPixelOffset s.i := by
  unfold pixelEvent pixelAt
  rw [rgb24_eq]

theorem pixelLoop_stop (isWS : Nat → Nat → Bool) (fuel : Nat) (s : MainState) (out : List Event)
    (h : ¬ (s.i < s.ledsInChannel s.curChannel + s.chanPixelOffset ∧ s.i < s.total_leds_num)) :
    pixelLoop isWS fuel s out = .ok (s, out) := by
  unfold pixelLoop
  rw [if_neg h]

theorem pixelLoop_step (isWS : Nat → Nat → Bool) (fuel : Nat) (s : MainState) (out : List Event)
    (h : s.i < s.ledsInChannel s.curChannel + s.chanPixelOffset ∧ s.i < s.total_leds_num)
    (hb : s.pixels + (s.i * 3 + 2) < MAX_SENDBUFFER_SIZE) :
    pixelLoop isWS (fuel + 1) s out
      = pixelLoop isWS fuel { s with i := s.i + 1 } (out ++ [pixelEvent isWS s]) := by
  conv_lhs => unfold pixelLoop
  rw [if_pos h]
  simp only [if_pos hb]

theorem pixelLoop_overflow (isWS : Nat → Nat → Bool) (fuel : Nat) (s : MainState)
    (out : List Event)
    (h : s.i < s.ledsInChannel s.curChannel + s.chanPixelOffset ∧ s.i < s.total_leds_num)
    (hb : ¬ s.pixels + (s.i * 3 + 2) < MAX_SENDBUFFER_SIZE) :
    pixelLoop isWS (fuel + 1) s out = .error .undefinedBehaviour := by
  conv_lhs => unfold pixelLoop
  rw [if_pos h]
  simp only [if_neg hb]

theorem pixelLoop_run (isWS : Nat → Nat → Bool) : ∀ (fuel : Nat) (s : MainState)
    (out : List Event),
    min (s.ledsInChannel s.curChannel + s.chanPixelOffset) s.total_leds_num - s.i ≤ fuel →
    (s.i < min (s.ledsInChannel s.curChannel + s.chanPixelOffset) s.total_leds_num →
      s.pixels + 3 * min (s.ledsInChannel s.curChannel + s.chanPixelOffset) s.total_leds_num
        ≤ MAX_SENDBUFFER_SIZE) →
    pixelLoop isWS fuel s out
      = .ok ({ s with
                i := max s.i (min (s.ledsInChannel s.curChannel + s.chanPixelOffset) s.total_leds_num) },
             out ++ (List.range
                      (min (s.ledsInChannel s.curChannel + s.chanPixelOffset) s.total_leds_num
                        - s.i)).map
                    (fun j => pixelAt isWS s.message s.pixels s.curChannel s.chanPixelOffset
                      (s.i + j))) := by
  intro fuel
  induction fuel with
  | zero =>
    intro s out hf _
    have hn : ¬ (s.i < s.ledsInChannel s.curChannel + s.chanPixelOffset
        ∧ s.i < s.total_leds_num) := by omega
    rw [pixelLoop_stop isWS 0 s out hn]
    have h0 : min (s.ledsInChannel s.curChannel + s.chanPixelOffset) s.total_leds_num - s.i = 0 := by
      omega
    have hm : max s.i (min (s.ledsInChannel s.curChannel + s.chanPixelOffset) s.total_leds_num)
        = s.i := by omega
    rw [h0, hm]
    simp
  | succ fuel ih =>
    intro s out hf hin
    by_cases hg : s.i < s.ledsInChannel s.curChannel + s.chanPixelOffset ∧ s.i < s.total_leds_num
    · have hin' := hin (by omega)
      rw [pixelLoop_step isWS fuel s out hg (by omega),
        ih _ _ (by simp only; omega) (by simp only; intro _; exact hin')]
      simp only
      have hcnt : min (s.ledsInChannel s.curChannel + s.chanPixelOffset) s.total_leds_num - s.i
          = (min (s.ledsInChannel s.curChannel + s.chanPixelOffset) s.total_leds_num
              - (s.i + 1)) + 1 := by omega
      have hmax : max (s.i + 1)
            (min (s.ledsInChannel s.curChannel + s.chanPixelOffset) s.total_leds_num)
          = max s.i (min (s.ledsInChannel s.curChannel + s.chanPixelOffset) s.total_leds_num) := by
        omega
      rw [hcnt, hmax, List.range_succ_eq_map, List.map_cons, List.map_map, pixelEvent_eq,
        List.append_assoc]
      simp only [List.singleton_append, Nat.add_zero, Function.comp_def, Nat.succ_eq_add_one,
        Nat.add_assoc, Nat.add_comm 1]
    · rw [pixelLoop_stop isWS _ s out hg]
      have h0 : min (s.ledsInChannel s.curChannel + s.chanPixelOffset) s.total_leds_num - s.i
          = 0 := by omega
      have hm : max s.i (min (s.ledsInChannel s.curChannel + s.chanPixelOffset) s.total_leds_num)
          = s.i := by omega
      rw [h0, hm]
      simp

theorem channelLoop_stop (isWS : Nat → Nat → Bool) (fuel : Nat) (s : MainState)
    (out : List Event) (h : ¬ s.curChannel < s.chan_cntr) :
    channelLoop isWS fuel s out = .ok (s, out) := by
  unfold channelLoop
  rw [if_neg h]

theorem channelLoop_step (isWS : Nat → Nat → Bool) (fuel : Nat) (s : MainState)
    (out : List Event) (h : s.curChannel < s.chan_cntr)
    (hin : s.chanPixelOffset
        < min (s.ledsInChannel s.curChannel + s.chanPixelOffset) s.total_leds_num →
      s.pixels + 3 * min (s.ledsInChannel s.curChannel + s.chanPixelOffset) s.total_leds_num
        ≤ MAX_SENDBUFFER_SIZE) :
    channelLoop isWS (fuel + 1) s out
      = channelLoop isWS fuel
          { s with
            i := max s.chanPixelOffset (min (s.ledsInChannel s.curChannel + s.chanPixelOffset) s.total_leds_num)
            chanPixelOffset := s.chanPixelOffset + s.ledsInChannel s.curChannel
            curChannel := s.curChannel + 1 }
          (out ++ channelEvents isWS s.message s.pixels s.total_leds_num s.curChannel
                    (s.ledsInChannel s.curChannel) s.chanPixelOffset) := by
  conv_lhs => unfold channelLoop
  rw [if_pos h]
  simp only
  rw [pixelLoop_run isWS _ _ _ (by simp only; omega) hin]
  rfl

theorem channelLoop_run (isWS : Nat → Nat → Bool) (m : Nat) : ∀ (fuel : Nat) (s : MainState)
    (out : List Event), m ≤ fuel → s.curChannel + m = s.chan_cntr →
    dispatchInBounds s.pixels s.total_leds_num s.ledsInChannel m s.curChannel
      s.chanPixelOffset →
    ∃ i off, channelLoop isWS fuel s out
      = .ok ({ s with i := i, chanPixelOffset := off, curChannel := s.chan_cntr },
             out ++ dispatchEvents isWS s.message s.pixels s.total_leds_num s.ledsInChannel m
                      s.curChannel s.chanPixelOffset) := by
  induction m with
  | zero =>
    intro fuel s out _ hm _
    refine ⟨s.i, s.chanPixelOffset, ?_⟩
    rw [channelLoop_stop isWS fuel s out (by omega)]
    cases s
    simp only [Nat.add_zero] at hm
    subst hm
    simp [dispatchEvents]
  | succ m ih =>
    intro fuel s out hf hm hin
    obtain ⟨fuel, rfl⟩ : ∃ f, fuel = f + 1 := ⟨fuel - 1, by omega⟩
    rw [channelLoop_step isWS fuel s out (by omega) hin.1]
    obtain ⟨i, off, hrun⟩ := ih fuel
      { s with
        i := max s.chanPixelOffset (min (s.ledsInChannel s.curChannel + s.chanPixelOffset) s.total_leds_num)
        chanPixelOffset := s.chanPixelOffset + s.ledsInChannel s.curChannel
        curChannel := s.curChannel + 1 }
      (out ++ channelEvents isWS s.message s.pixels s.total_leds_num s.curChannel
                (s.ledsInChannel s.curChannel) s.chanPixelOffset)
      (by omega) (by simp only; omega) hin.2
    refine ⟨i, off, ?_⟩
    rw [hrun]
    simp only [dispatchEvents, List.append_assoc]

/-! ## Header decode and dispatch -/

theorem dispatchInBounds_congr (pixels total : Nat) (leds leds' : Nat → Nat) (m : Nat) :
    ∀ (k off : Nat), (∀ j, k ≤ j → j < k + m → leds j = leds' j) →
    dispatchInBounds pixels total leds m k off → dispatchInBounds pixels total leds' m k off := by
  induction m with
  | zero => intro k off _ _; trivial
  | succ m ih =>
    intro k off heq h
    have hk : leds k = leds' k := heq k (Nat.le_refl _) (by omega)
    unfold dispatchInBounds at h ⊢
    rw [← hk]
    exact ⟨h.1, ih (k + 1) (off + leds k) (fun j h1 h2 => heq j (by omega) (by omega)) h.2⟩

theorem dispatchInBounds_of_total (pixels total : Nat) (leds : Nat → Nat)
    (h : pixels + 3 * total ≤ MAX_SENDBUFFER_SIZE) (m : Nat) :
    ∀ (k off : Nat), dispatchInBounds pixels total leds m k off := by
  induction m with
  | zero => intro k off; trivial
  | succ m ih =>
    intro k off
    unfold dispatchInBounds
    exact ⟨fun _ => by omega, ih (k + 1) (off + leds k)⟩

theorem decodeAndDispatch_run (bits : Nat) (isWS : Nat → Nat → Bool) (s : MainState) (n : Nat)
    (hn : n ≤ LEDS_IN_CHANNEL_LEN) (hs : ScanStops s.message s.received n)
    (hin : dispatchInBounds (n * 2 + 2) (sizeSub bits s.received (n * 2 + 2) / 3)
      (entryValue s.message) (min n MAX_CHANNELS) 0 0) :
    ∃ s', decodeAndDispatch bits isWS s
        = .ok (s', dispatchEvents isWS s.message (n * 2 + 2)
                    (sizeSub bits s.received (n * 2 + 2) / 3) s'.ledsInChannel
                    (min n MAX_CHANNELS) 0 0)
      ∧ s'.headerByteOffset = n * 2 + 2 ∧ s'.pixels = n * 2 + 2
      ∧ s'.chan_cntr = min n MAX_CHANNELS ∧ s'.curChannel = min n MAX_CHANNELS
      ∧ s'.total_leds_num = sizeSub bits s.received (n * 2 + 2) / 3
      ∧ s'.message = s.message ∧ s'.received = s.received
      ∧ s'.gpioSwitcher = s.gpioSwitcher
      ∧ (∀ k, k < n → s'.ledsInChannel k = entryValue s.message k)
      ∧ (∀ k, n ≤ k → s'.ledsInChannel k = s.ledsInChannel k)
      ∧ (∀ k, k < n → s'.ledsInChannel k ≤ s'.max_leds_in_chan)
      ∧ (s'.max_leds_in_chan = 0 ∨ ∃ k, k < n ∧ s'.max_leds_in_chan = s'.ledsInChannel k) := by
  obtain ⟨leds, mx, hrun, hnew, -, hhigh, -, hle, hmax⟩ :=
    headerScan_run n s.received { s with chan_cntr := 0, max_leds_in_chan := 0 }
      (by
        rcases Nat.eq_zero_or_pos n with h0 | hpos
        · omega
        · have := (hs.1 (n - 1) (by omega)).1
          simp only at this ⊢
          omega)
      (by simp only; omega)
      (fun j _ h2 => hs.1 j (by simp only at h2; omega))
      (by simpa only [Nat.zero_add] using hs.2)
  simp only [Nat.zero_add] at hrun hnew hhigh hle hmax
  have hin' : dispatchInBounds (n * 2 + 2) (sizeSub bits s.received (n * 2 + 2) / 3) leds
      (min n MAX_CHANNELS) 0 0 :=
    dispatchInBounds_congr _ _ _ _ _ 0 0
      (fun j _ h2 => (hnew j (Nat.zero_le _) (by omega)).symm) hin
  unfold decodeAndDispatch
  simp only [hrun]
  by_cases hcl : n > MAX_CHANNELS
  · have hmin : min n MAX_CHANNELS = MAX_CHANNELS := by omega
    simp only [if_pos hcl]
    obtain ⟨i, off, hch⟩ := channelLoop_run isWS MAX_CHANNELS MAX_CHANNELS
      { received := s.received, i := s.i,
        total_leds_num := sizeSub bits s.received (n * 2 + 2) / 3,
        max_leds_in_chan := mx, chan_cntr := MAX_CHANNELS, curChannel := 0,
        headerByteOffset := n * 2 + 2, chanPixelOffset := 0, ledsInChannel := leds,
        pixels := n * 2 + 2, message := s.message, gpioSwitcher := s.gpioSwitcher }
      [] (Nat.le_refl _) (by simp only; omega) (by rw [hmin] at hin'; exact hin')
    refine ⟨
      { received := s.received, i := i,
        total_leds_num := sizeSub bits s.received (n * 2 + 2) / 3,
        max_leds_in_chan := mx, chan_cntr := MAX_CHANNELS, curChannel := MAX_CHANNELS,
        headerByteOffset := n * 2 + 2, chanPixelOffset := off, ledsInChannel := leds,
        pixels := n * 2 + 2, message := s.message, gpioSwitcher := s.gpioSwitcher }, ?_, ?_⟩
    · rw [hmin]
      simpa only [List.nil_append] using hch
    · refine ⟨rfl, rfl, hmin.symm, hmin.symm, rfl, rfl, rfl, rfl, ?_, ?_, ?_, ?_⟩
      · exact fun k hk => hnew k (Nat.zero_le _) hk
      · exact fun k hk => hhigh k hk
      · exact fun k hk => hle k (Nat.zero_le _) hk
      · rcases hmax with h | ⟨k, _, h2, h3⟩
        · exact Or.inl h
        · exact Or.inr ⟨k, h2, h3⟩
  · have hmin : min n MAX_CHANNELS = n := by omega
    simp only [if_neg hcl]
    obtain ⟨i, off, hch⟩ := channelLoop_run isWS n n
      { received := s.received, i := s.i,
        total_leds_num := sizeSub bits s.received (n * 2 + 2) / 3,
        max_leds_in_chan := mx, chan_cntr := n, curChannel := 0,
        headerByteOffset := n * 2 + 2, chanPixelOffset := 0, ledsInChannel := leds,
        pixels := n * 2 + 2, message := s.message, gpioSwitcher := s.gpioSwitcher }
      [] (Nat.le_refl _) (by simp only; omega) (by rw [hmin] at hin'; exact hin')
    refine ⟨
      { received := s.received, i := i,
        total_leds_num := sizeSub bits s.received (n * 2 + 2) / 3,
        max_leds_in_chan := mx, chan_cntr := n, curChannel := n,
        headerByteOffset := n * 2 + 2, chanPixelOffset := off, ledsInChannel := leds,
        pixels := n * 2 + 2, message := s.message, gpioSwitcher := s.gpioSwitcher }, ?_, ?_⟩
    · rw [hmin]
      simpa only [List.nil_append] using hch
    · refine ⟨rfl, rfl, hmin.symm, hmin.symm, rfl, rfl, rfl, rfl, ?_, ?_, ?_, ?_⟩
      · exact fun k hk => hnew k (Nat.zero_le _) hk
      · exact fun k hk => hhigh k hk
      · exact fun k hk => hle k (Nat.zero_le _) hk
      · rcases hmax with h | ⟨k, _, h2, h3⟩
        · exact Or.inl h
        · exact Or.inr ⟨k, h2, h3⟩

/-! ## Well-formed frames -/

theorem sizeSub_le {bits a b : Nat} (hba : b ≤ a) : sizeSub bits a b ≤ a - b := by
  unfold sizeSub
  have hdm : 2 ^ bits * (b / 2 ^ bits) + b % 2 ^ bits = b := Nat.div_add_mod b (2 ^ bits)
  have hsplit : a + 2 ^ bits - b % 2 ^ bits
      = (a - b) + 2 ^ bits * (b / 2 ^ bits + 1) := by
    rw [Nat.mul_add, Nat.mul_one]
    omega
  rw [hsplit, Nat.add_mul_mod_self_left]
  exact Nat.mod_le _ _

/-- The pixel reads of a frame whose header ends inside the datagram stay inside a datagram
that fits the buffer. -/
theorem dispatchInBounds_of_fits (bits L hbo : Nat) (leds : Nat → Nat) (hhbo : hbo ≤ L)
    (hcap : L ≤ MAX_SENDBUFFER_SIZE) (m k off : Nat) :
    dispatchInBounds hbo (sizeSub bits L hbo / 3) leds m k off := by
  apply dispatchInBounds_of_total
  have h1 : sizeSub bits L hbo ≤ L - hbo := sizeSub_le hhbo
  have h2 : 3 * (sizeSub bits L hbo / 3) ≤ sizeSub bits L hbo := Nat.mul_div_le _ _
  omega

theorem entryValue_stored (message : Nat → Byte) (dgram : List Byte) (k : Nat)
    (h : 2 * k + 1 < dgram.length) :
    entryValue (stored message dgram) k = declared dgram k := by
  unfold entryValue declared
  rw [stored_lt message dgram (by omega : k * 2 < dgram.length),
    stored_lt message dgram (by omega : k * 2 + 1 < dgram.length), Nat.mul_comm k 2]

theorem scanStops_of_wellFormed (message : Nat → Byte) (dgram : List Byte) (n : Nat)
    (h : WellFormed dgram n) : ScanStops (stored message dgram) dgram.length n := by
  obtain ⟨_, _, hlen, hvalid, h0, h1⟩ := h
  constructor
  · intro j hj
    refine ⟨by omega, ?_, ?_⟩
    · rw [stored_lt message dgram (by omega : j * 2 < dgram.length)]
      exact hvalid (j * 2) (by omega)
    · rw [stored_lt message dgram (by omega : j * 2 + 1 < dgram.length)]
      exact hvalid (j * 2 + 1) (by omega)
  · intro hg
    apply hg.2.1
    rw [stored_lt message dgram (by omega : n * 2 < dgram.length), Nat.mul_comm n 2]
    exact h0

theorem channelEvents_stored (isWS : Nat → Nat → Bool) (message : Nat → Byte)
    (dgram : List Byte) (n k count off : Nat) (hlen : 2 * n + 2 ≤ dgram.length) :
    channelEvents isWS (stored message dgram) (n * 2 + 2) (payloadTriples dgram n) k count off
      = (List.range (min count (payloadTriples dgram n - off))).map
          (framePixel isWS dgram n k off) := by
  unfold channelEvents
  have hc : min (count + off) (payloadTriples dgram n) - off
      = min count (payloadTriples dgram n - off) := by omega
  rw [hc]
  apply List.map_congr_left
  intro j hj
  have hj' : j < min count (payloadTriples dgram n - off) := List.mem_range.1 hj
  have hT : 3 * payloadTriples dgram n ≤ dgram.length - (2 * n + 2) :=
    Nat.mul_div_le _ _
  have hb : off + j < payloadTriples dgram n := by omega
  unfold pixelAt framePixel payloadByte
  rw [stored_lt message dgram (by omega : n * 2 + 2 + ((off + j) * 3 + 0) < dgram.length),
    stored_lt message dgram (by omega : n * 2 + 2 + ((off + j) * 3 + 1) < dgram.length),
    stored_lt message dgram (by omega : n * 2 + 2 + ((off + j) * 3 + 2) < dgram.length)]
  have e0 : n * 2 + 2 + ((off + j) * 3 + 0) = 2 * n + 2 + 3 * (off + j) := by omega
  have e1 : n * 2 + 2 + ((off + j) * 3 + 1) = 2 * n + 2 + (3 * (off + j) + 1) := by omega
  have e2 : n * 2 + 2 + ((off + j) * 3 + 2) = 2 * n + 2 + (3 * (off + j) + 2) := by omega
  rw [e0, e1, e2, Nat.add_sub_cancel_left]

/-- Receive, header decode and dispatch of a well-formed frame that fits the buffer: the
final state and all writes. -/
theorem receiveAndDispatch_wellFormed (bits : Nat) (isWS : Nat → Nat → Bool) (s : MainState)
    (dgram : List Byte) (n : Nat) (h : WellFormed dgram n)
    (hcap : dgram.length ≤ MAX_SENDBUFFER_SIZE) (hbits : dgram.length < 2 ^ bits) :
    ∃ s', receiveAndDispatch bits isWS s dgram = .ok (s', frameEvents isWS dgram n)
      ∧ s'.headerByteOffset = 2 * n + 2 ∧ s'.chan_cntr = min n MAX_CHANNELS
      ∧ s'.total_leds_num = payloadTriples dgram n
      ∧ (∀ k, k < n → s'.ledsInChannel k = declared dgram k) := by
  have hlen : 2 * n + 2 ≤ dgram.length := h.2.2.1
  obtain ⟨s', hrun, hhbo, -, hcc, -, htot, -, -, -, hleds, -, -, -⟩ :=
    decodeAndDispatch_run bits isWS (s.holding dgram) n h.1
      (scanStops_of_wellFormed s.message dgram n h)
      (dispatchInBounds_of_fits bits dgram.length (n * 2 + 2) _ (by omega) hcap _ 0 0)
  have hT : sizeSub bits dgram.length (n * 2 + 2) / 3 = payloadTriples dgram n := by
    rw [sizeSub_of_le (by omega) hbits, Nat.mul_comm n 2]
    rfl
  have hleds' : ∀ k, k < n → s'.ledsInChannel k = declared dgram k := by
    intro k hk
    rw [hleds k hk]
    exact entryValue_stored s.message dgram k (by omega)
  refine ⟨s', ?_, by omega, hcc, ?_, hleds'⟩
  · rw [receiveAndDispatch_ok bits isWS s dgram hcap, hrun]
    congr 2
    show dispatchEvents isWS (stored s.message dgram) (n * 2 + 2)
        (sizeSub bits dgram.length (n * 2 + 2) / 3) s'.ledsInChannel (min n MAX_CHANNELS) 0 0
      = frameEvents isWS dgram n
    rw [hT]
    unfold frameEvents
    have hcases : min n MAX_CHANNELS = 0 ∨ min n MAX_CHANNELS = 1 ∨ min n MAX_CHANNELS = 2 := by
      unfold MAX_CHANNELS; omega
    rcases hcases with hc | hc | hc
    · rw [hc]
      rfl
    · have h0 : 0 < n := by unfold MAX_CHANNELS at hc; omega
      rw [hc]
      simp only [dispatchEvents, List.append_nil, channelEvents_stored _ _ _ _ _ _ _ hlen,
        hleds' 0 h0]
      simp [frameChannelEvents, writeCount, offsetOf, List.range_succ]
    · have h0 : 0 < n := by unfold MAX_CHANNELS at hc; omega
      have h1 : 1 < n := by unfold MAX_CHANNELS at hc; omega
      rw [hc]
      simp only [dispatchEvents, List.append_nil, channelEvents_stored _ _ _ _ _ _ _ hlen,
        hleds' 0 h0, hleds' 1 h1]
      simp [frameChannelEvents, writeCount, offsetOf, List.range_succ]
  · rw [htot]
    exact hT

/-! ## The fuel is enough -/

theorem headerScan_overflow (fuel : Nat) (s : MainState)
    (h : scanGuard s.message s.received s.chan_cntr) (hc : ¬ s.chan_cntr < LEDS_IN_CHANNEL_LEN) :
    headerScan (fuel + 1) s = .error .undefinedBehaviour := by
  have h' : s.chan_cntr + 1 < s.received
      ∧ (s.message (s.chan_cntr * 2) ≠ 0xff ∧ s.message (s.chan_cntr * 2 + 1) ≠ 0xff) := h
  conv_lhs => unfold headerScan
  rw [if_pos h']
  simp only [if_neg hc]

theorem headerScan_outOfFuel (s : MainState)
    (h : scanGuard s.message s.received s.chan_cntr) :
    headerScan 0 s = .error .outOfFuel := by
  have h' : s.chan_cntr + 1 < s.received
      ∧ (s.message (s.chan_cntr * 2) ≠ 0xff ∧ s.message (s.chan_cntr * 2 + 1) ≠ 0xff) := h
  unfold headerScan
  rw [if_pos h']

/-- A scan that starts at an entry up to 6 and ends in a state ends at an entry up to 6: the
guard is evaluated at the entries 0 to 6 only, so the scan reads `message` at the offsets 0
to 13 only. -/
theorem headerScan_chan_cntr_le : ∀ (fuel : Nat) (s s' : MainState),
    s.chan_cntr ≤ LEDS_IN_CHANNEL_LEN → headerScan fuel s = .ok s' →
    s'.chan_cntr ≤ LEDS_IN_CHANNEL_LEN := by
  intro fuel
  induction fuel with
  | zero =>
    intro s s' hs hrun
    by_cases hg : scanGuard s.message s.received s.chan_cntr
    · rw [headerScan_outOfFuel s hg] at hrun
      exact Except.noConfusion hrun
    · rw [headerScan_stop 0 s hg] at hrun
      rw [← Except.ok.inj hrun]
      exact hs
  | succ fuel ih =>
    intro s s' hs hrun
    by_cases hg : scanGuard s.message s.received s.chan_cntr
    · by_cases hc : s.chan_cntr < LEDS_IN_CHANNEL_LEN
      · rw [headerScan_step fuel s hg hc] at hrun
        exact ih _ s' (by simp only; omega) hrun
      · rw [headerScan_overflow fuel s hg hc] at hrun
        exact Except.noConfusion hrun
    · rw [headerScan_stop _ s hg] at hrun
      rw [← Except.ok.inj hrun]
      exact hs

theorem headerScan_ne_outOfFuel : ∀ (fuel : Nat) (s : MainState),
    s.received ≤ s.chan_cntr + fuel + 1 → headerScan fuel s ≠ .error .outOfFuel := by
  intro fuel
  induction fuel with
  | zero =>
    intro s hf
    have hg : ¬ scanGuard s.message s.received s.chan_cntr := by
      intro hg
      have := hg.1
      omega
    rw [headerScan_stop 0 s hg]
    exact fun h => Except.noConfusion h
  | succ fuel ih =>
    intro s hf
    by_cases hg : scanGuard s.message s.received s.chan_cntr
    · by_cases hc : s.chan_cntr < LEDS_IN_CHANNEL_LEN
      · rw [headerScan_step fuel s hg hc]
        exact ih _ (by simp only; omega)
      · rw [headerScan_overflow fuel s hg hc]
        exact fun h => Fault.noConfusion (Except.error.inj h)
    · rw [headerScan_stop _ s hg]
      exact fun h => Except.noConfusion h

theorem pixelLoop_total (isWS : Nat → Nat → Bool) : ∀ (fuel : Nat) (s : MainState)
    (out : List Event),
    min (s.ledsInChannel s.curChannel + s.chanPixelOffset) s.total_leds_num - s.i ≤ fuel →
    pixelLoop isWS fuel s out = .error .undefinedBehaviour
      ∨ ∃ i out', pixelLoop isWS fuel s out = .ok ({ s with i := i }, out') := by
  intro fuel
  induction fuel with
  | zero =>
    intro s out hf
    right
    exact ⟨s.i, out, pixelLoop_stop isWS 0 s out (by omega)⟩
  | succ fuel ih =>
    intro s out hf
    by_cases hg : s.i < s.ledsInChannel s.curChannel + s.chanPixelOffset ∧ s.i < s.total_leds_num
    · by_cases hb : s.pixels + (s.i * 3 + 2) < MAX_SENDBUFFER_SIZE
      · rw [pixelLoop_step isWS fuel s out hg hb]
        rcases ih { s with i := s.i + 1 } (out ++ [pixelEvent isWS s])
            (by simp only; omega) with h | ⟨i, out', h⟩
        · exact Or.inl h
        · exact Or.inr ⟨i, out', h⟩
      · exact Or.inl (pixelLoop_overflow isWS fuel s out hg hb)
    · right
      exact ⟨s.i, out, pixelLoop_stop isWS _ s out hg⟩

theorem channelLoop_total (isWS : Nat → Nat → Bool) (m : Nat) : ∀ (fuel : Nat) (s : MainState)
    (out : List Event), m ≤ fuel → s.curChannel + m = s.chan_cntr →
    channelLoop isWS fuel s out = .error .undefinedBehaviour
      ∨ ∃ r, channelLoop isWS fuel s out = .ok r := by
  induction m with
  | zero =>
    intro fuel s out _ hm
    right
    exact ⟨_, channelLoop_stop isWS fuel s out (by omega)⟩
  | succ m ih =>
    intro fuel s out hf hm
    obtain ⟨fuel, rfl⟩ : ∃ f, fuel = f + 1 := ⟨fuel - 1, by omega⟩
    have hg : s.curChannel < s.chan_cntr := by omega
    conv_lhs => unfold channelLoop
    conv in (channelLoop isWS (fuel + 1) s out) => unfold channelLoop
    rw [if_pos hg]
    simp only
    rcases pixelLoop_total isWS (s.ledsInChannel s.curChannel)
        { s with i := s.chanPixelOffset } out (by simp only; omega) with h | ⟨i, out', h⟩
    · left
      rw [h]
    · rw [h]
      simp only
      exact ih fuel _ out' (by omega) (by simp only; omega)

/-- Header decode and dispatch end in a state or in undefined behaviour (a store past
`ledsInChannel` or a pixel read past `message`); the fuel never runs out. -/
theorem decodeAndDispatch_total (bits : Nat) (isWS : Nat → Nat → Bool) (s : MainState) :
    decodeAndDispatch bits isWS s = .error .undefinedBehaviour
      ∨ ∃ r, decodeAndDispatch bits isWS s = .ok r := by
  unfold decodeAndDispatch
  simp only
  cases hscan : headerScan s.received
      { s with chan_cntr := 0, max_leds_in_chan := 0 } with
  | error f =>
    left
    cases f with
    | undefinedBehaviour => rfl
    | outOfFuel =>
      exact absurd hscan (headerScan_ne_outOfFuel _ _ (by simp only; omega))
  | ok s1 =>
    simp only
    split
    · exact channelLoop_total isWS MAX_CHANNELS MAX_CHANNELS
        { s1 with
          headerByteOffset := s1.chan_cntr * 2 + 2, pixels := s1.chan_cntr * 2 + 2,
          chan_cntr := MAX_CHANNELS,
          total_leds_num := sizeSub bits s1.received (s1.chan_cntr * 2 + 2) / 3,
          chanPixelOffset := 0, curChannel := 0 }
        [] (Nat.le_refl _) (by simp only; omega)
    · exact channelLoop_total isWS s1.chan_cntr s1.chan_cntr
        { s1 with
          headerByteOffset := s1.chan_cntr * 2 + 2, pixels := s1.chan_cntr * 2 + 2,
          total_leds_num := sizeSub bits s1.received (s1.chan_cntr * 2 + 2) / 3,
          chanPixelOffset := 0, curChannel := 0 }
        [] (Nat.le_refl _) (by simp only; omega)

theorem sendLoop_run (m : Nat) : ∀ (fuel : Nat) (s : MainState) (out : List Event),
    m ≤ fuel → s.curChannel + m = s.chan_cntr →
    ∃ out', sendLoop fuel s out = .ok ({ s with curChannel := s.chan_cntr }, out') := by
  induction m with
  | zero =>
    intro fuel s out _ hm
    refine ⟨out, ?_⟩
    have hg : ¬ s.curChannel < s.chan_cntr := by omega
    unfold sendLoop
    rw [if_neg hg]
    cases s
    simp only [Nat.add_zero] at hm
    subst hm
    rfl
  | succ m ih =>
    intro fuel s out hf hm
    obtain ⟨fuel, rfl⟩ : ∃ f, fuel = f + 1 := ⟨fuel - 1, by omega⟩
    have hg : s.curChannel < s.chan_cntr := by omega
    unfold sendLoop
    rw [if_pos hg]
    simp only
    split
    · exact ih fuel { s with curChannel := s.curChannel + 1 } out (by omega)
        (by simp only; omega)
    · exact ih fuel { s with curChannel := s.curChannel + 1 } _ (by omega)
        (by simp only; omega)

theorem renderAndPace_ok (inp : Inputs) (s : MainState) (out : List Event) :
    ∃ r, renderAndPace inp s out = .ok r := by
  unfold renderAndPace
  split
  · split
    · exact ⟨_, rfl⟩
    · exact ⟨_, rfl⟩
  · obtain ⟨out', hsend⟩ := sendLoop_run s.chan_cntr s.chan_cntr
      { s with curChannel := 0 } out (Nat.le_refl _) (by simp only; omega)
    rw [hsend]
    exact ⟨_, rfl⟩

/-- One loop iteration ends in a state or in undefined behaviour; the fuel never runs out. -/
theorem loopBody_total (bits : Nat) (inp : Inputs) (s : MainState) :
    loopBody bits inp s = .error .undefinedBehaviour ∨ ∃ r, loopBody bits inp s = .ok r := by
  unfold loopBody
  simp only
  split
  · split
    · exact Or.inr ⟨_, rfl⟩
    · by_cases hcap : inp.dgram.length ≤ MAX_SENDBUFFER_SIZE
      · rw [Receive_ok s.message inp.dgram hcap]
        simp only
        rcases decodeAndDispatch_total bits inp.isWSPixel
            { s with gpioSwitcher := s.gpioSwitcher.switchWsOut inp.isWSRoute,
                     received := inp.peek,
                     message := stored s.message inp.dgram } with h | ⟨⟨s1, out1⟩, h⟩
        · left
          rw [h]
        · right
          rw [h]
          exact renderAndPace_ok inp s1 out1
      · left
        rw [Receive_overflow s.message inp.dgram (by omega)]
  · exact Or.inr ⟨_, rfl⟩

/-- An iteration that receives a datagram longer than four bytes runs the receive, header
decode and dispatch of `receiveAndDispatch`, then render or send. -/
theorem loopBody_of_frame (bits : Nat) (inp : Inputs) (s : MainState)
    (hpeek : inp.peek = inp.dgram.length) (hL : 4 < inp.dgram.length) (hret : 0 < inp.recvRet) :
    loopBody bits inp s
      = match receiveAndDispatch bits inp.isWSPixel
          { s with gpioSwitcher := s.gpioSwitcher.switchWsOut inp.isWSRoute } inp.dgram with
        | .error f => .error f
        | .ok (s1, out1) => renderAndPace inp s1 out1 := by
  have h1 : inp.dgram.length > 4 := hL
  have h2 : ¬ inp.recvRet ≤ 0 := by omega
  unfold loopBody receiveAndDispatch MainState.afterReceive
  simp only [if_neg h2, hpeek, if_pos h1]
  cases Receive s.message inp.dgram <;> rfl

/-! ## Facts about the written pixels -/

theorem pixelAt_pixelChannel (isWS : Nat → Nat → Bool) (message : Nat → Byte)
    (pixels k off i : Nat) : (pixelAt isWS message pixels k off i).pixelChannel = some k := by
  unfold pixelAt
  split <;> rfl

theorem mem_dispatchEvents_pixelChannel (isWS : Nat → Nat → Bool) (message : Nat → Byte)
    (pixels total : Nat) (leds : Nat → Nat) (m : Nat) : ∀ (k off : Nat) (e : Event),
    e ∈ dispatchEvents isWS message pixels total leds m k off →
    ∃ c, k ≤ c ∧ c < k + m ∧ e.pixelChannel = some c := by
  induction m with
  | zero =>
    intro k off e he
    simp [dispatchEvents] at he
  | succ m ih =>
    intro k off e he
    simp only [dispatchEvents, List.mem_append] at he
    rcases he with he | he
    · unfold channelEvents at he
      obtain ⟨j, -, rfl⟩ := List.mem_map.1 he
      exact ⟨k, Nat.le_refl _, by omega, pixelAt_pixelChannel _ _ _ _ _ _⟩
    · obtain ⟨c, h1, h2, h3⟩ := ih (k + 1) (off + leds k) e he
      exact ⟨c, by omega, by omega, h3⟩

theorem framePixel_pixelChannel (isWS : Nat → Nat → Bool) (dgram : List Byte) (n k off j : Nat) :
    (framePixel isWS dgram n k off j).pixelChannel = some k := by
  unfold framePixel
  split <;> rfl

theorem framePixel_pixelIndex (isWS : Nat → Nat → Bool) (dgram : List Byte) (n k off j : Nat) :
    (framePixel isWS dgram n k off j).pixelIndex = some j := by
  unfold framePixel
  split <;> rfl

theorem pixelIndicesOf_append (c : Nat) (l1 l2 : List Event) :
    pixelIndicesOf c (l1 ++ l2) = pixelIndicesOf c l1 ++ pixelIndicesOf c l2 := by
  simp [pixelIndicesOf]

theorem pixelIndicesOf_map_framePixel (isWS : Nat → Nat → Bool) (dgram : List Byte)
    (n k off c : Nat) (l : List Nat) :
    pixelIndicesOf c (l.map (framePixel isWS dgram n k off)) = if c = k then l else [] := by
  induction l with
  | nil => simp [pixelIndicesOf]
  | cons j l ih =>
    have hrec : pixelIndicesOf c ((j :: l).map (framePixel isWS dgram n k off))
        = pixelIndicesOf c [framePixel isWS dgram n k off j]
          ++ pixelIndicesOf c (l.map (framePixel isWS dgram n k off)) := by
      rw [← pixelIndicesOf_append]
      rfl
    rw [hrec, ih]
    by_cases hc : c = k
    · subst hc
      simp [pixelIndicesOf, framePixel_pixelChannel, framePixel_pixelIndex]
    · have hc' : ¬ k = c := fun h => hc h.symm
      simp [pixelIndicesOf, framePixel_pixelChannel, hc, hc']

theorem pixelIndicesOf_frameEvents (isWS : Nat → Nat → Bool) (dgram : List Byte) (n c : Nat) :
    pixelIndicesOf c (frameEvents isWS dgram n)
      = if c < min n MAX_CHANNELS then List.range (writeCount dgram n c) else [] := by
  unfold frameEvents
  have hcases : min n MAX_CHANNELS = 0 ∨ min n MAX_CHANNELS = 1 ∨ min n MAX_CHANNELS = 2 := by
    unfold MAX_CHANNELS; omega
  rcases hcases with hc | hc | hc
  · rw [hc]
    simp [pixelIndicesOf]
  · rw [hc]
    simp only [List.range_succ, List.range_zero, List.nil_append, List.flatMap_cons,
      List.flatMap_nil, List.append_nil, frameChannelEvents, pixelIndicesOf_map_framePixel]
    by_cases h0 : c = 0
    · simp [h0]
    · have : ¬ c < 1 := by omega
      simp [h0, this]
  · rw [hc]
    simp only [List.range_succ, List.range_zero, List.nil_append, List.flatMap_cons,
      List.flatMap_nil, List.append_nil, frameChannelEvents, pixelIndicesOf_append,
      pixelIndicesOf_map_framePixel, List.singleton_append, Nat.zero_add]
    by_cases h0 : c = 0
    · simp [h0]
    · by_cases h1 : c = 1
      · simp [h1]
      · have : ¬ c < 2 := by omega
        simp [h0, h1, this]

theorem mem_frameEvents (isWS : Nat → Nat → Bool) (dgram : List Byte) (n : Nat) (e : Event)
    (he : e ∈ frameEvents isWS dgram n) :
    ∃ k j, k < min n MAX_CHANNELS ∧ j < writeCount dgram n k
      ∧ e = framePixel isWS dgram n k (offsetOf dgram k) j := by
  unfold frameEvents at he
  obtain ⟨k, hk, hek⟩ := List.mem_flatMap.1 he
  unfold frameChannelEvents at hek
  obtain ⟨j, hj, rfl⟩ := List.mem_map.1 hek
  exact ⟨k, j, List.mem_range.1 hk, List.mem_range.1 hj, rfl⟩

theorem offsetOf_zero (dgram : List Byte) : offsetOf dgram 0 = 0 := by
  simp [offsetOf]

theorem offsetOf_one (dgram : List Byte) : offsetOf dgram 1 = declared dgram 0 := by
  simp [offsetOf, List.range_succ]

theorem mem_frameEvents_iff (isWS : Nat → Nat → Bool) (dgram : List Byte) (n : Nat) (e : Event) :
    e ∈ frameEvents isWS dgram n ↔
      ∃ k j, k < min n MAX_CHANNELS ∧ j < writeCount dgram n k
        ∧ e = framePixel isWS dgram n k (offsetOf dgram k) j := by
  constructor
  · exact mem_frameEvents isWS dgram n e
  · rintro ⟨k, j, hk, hj, rfl⟩
    unfold frameEvents
    exact List.mem_flatMap.2 ⟨k, List.mem_range.2 hk,
      List.mem_map.2 ⟨j, List.mem_range.2 hj, rfl⟩⟩

theorem overCapacityFrame_length : overCapacityFrame.length = 6004 := by
  unfold overCapacityFrame
  rw [List.length_append, List.length_replicate]
  rfl

theorem overCapacityFrame_wellFormed : WellFormed overCapacityFrame 1 := by
  refine ⟨by decide, ?_, ?_, by decide, by decide, by decide⟩
  · rw [overCapacityFrame_length]; decide
  · rw [overCapacityFrame_length]; decide

theorem overCapacityFrame_writeCount : writeCount overCapacityFrame 1 0 = 2000 := by
  unfold writeCount payloadTriples
  rw [overCapacityFrame_length, offsetOf_zero]
  have hd : declared overCapacityFrame 0 = 2000 := by decide
  rw [hd]
  decide

theorem shortFrame_scanStops : ScanStops (MainState.zero.holding shortFrame).message
    (MainState.zero.holding shortFrame).received 4 := by
  decide

/-- The pixel reads after the five-byte datagram `shortFrame`, whose first two entries
declare one LED each, end at or before byte 16 of the buffer. -/
theorem shortFrame_inBounds (s : MainState) (n total : Nat) (hn : n ≤ 4) :
    dispatchInBounds (n * 2 + 2) total (entryValue (s.holding shortFrame).message) 2 0 0 := by
  have e0 : entryValue (s.holding shortFrame).message 0 = 1 :=
    (entryValue_stored s.message shortFrame 0 (by decide)).trans (by decide)
  have e1 : entryValue (s.holding shortFrame).message 1 = 1 :=
    (entryValue_stored s.message shortFrame 1 (by decide)).trans (by decide)
  simp only [dispatchInBounds, e0, e1]
  unfold MAX_SENDBUFFER_SIZE
  refine ⟨fun _ => by omega, fun _ => by omega, trivial⟩

/-- The five-byte datagram `shortFrame` in any state of the program, for any width of `size_t`:
the payload offset lies behind the end of the datagram. -/
theorem shortFrame_offset_behind_end (bits : Nat) (isWS : Nat → Nat → Bool) (s : MainState) :
    ∃ s' out, receiveAndDispatch bits isWS s shortFrame = .ok (s', out)
      ∧ shortFrame.length < s'.headerByteOffset
      ∧ s'.total_leds_num = sizeSub bits shortFrame.length s'.headerByteOffset / 3 := by
  have hr : (s.holding shortFrame).received = 5 := rfl
  have hm : ∀ i, i < 5 → (s.holding shortFrame).message i = shortFrame.getD i 0 :=
    fun i hi => stored_lt s.message shortFrame hi
  have hpass : ∀ j, j < 2 →
      scanGuard (s.holding shortFrame).message (s.holding shortFrame).received j := by
    intro j hj
    have hj' : j = 0 ∨ j = 1 := by omega
    rcases hj' with rfl | rfl
    · refine ⟨by rw [hr]; decide, ?_, ?_⟩
      · rw [hm (0 * 2) (by decide)]; decide
      · rw [hm (0 * 2 + 1) (by decide)]; decide
    · refine ⟨by rw [hr]; decide, ?_, ?_⟩
      · rw [hm (1 * 2) (by decide)]; decide
      · rw [hm (1 * 2 + 1) (by decide)]; decide
  have hend : ¬ scanGuard (s.holding shortFrame).message
      (s.holding shortFrame).received 4 := by
    intro hg
    have h := hg.1
    rw [hr] at h
    omega
  have key : ∃ n, 2 ≤ n ∧ n ≤ 4 ∧ ScanStops (s.holding shortFrame).message
      (s.holding shortFrame).received n := by
    by_cases g2 : scanGuard (s.holding shortFrame).message
        (s.holding shortFrame).received 2
    · by_cases g3 : scanGuard (s.holding shortFrame).message
          (s.holding shortFrame).received 3
      · refine ⟨4, by omega, by omega, ?_, hend⟩
        intro j hj
        have hj' : j < 2 ∨ j = 2 ∨ j = 3 := by omega
        rcases hj' with h | rfl | rfl
        · exact hpass j h
        · exact g2
        · exact g3
      · refine ⟨3, by omega, by omega, ?_, g3⟩
        intro j hj
        have hj' : j < 2 ∨ j = 2 := by omega
        rcases hj' with h | rfl
        · exact hpass j h
        · exact g2
    · exact ⟨2, by omega, by omega, hpass, g2⟩
  obtain ⟨n, hn2, hn4, hstops⟩ := key
  have hmin : min n MAX_CHANNELS = 2 := by unfold MAX_CHANNELS; omega
  obtain ⟨s', hrun, hhbo, -, -, -, htot, -, -, -, -, -, -, -⟩ :=
    decodeAndDispatch_run bits isWS (s.holding shortFrame) n
      (by unfold LEDS_IN_CHANNEL_LEN; omega) hstops
      (by rw [hmin]; exact shortFrame_inBounds s n _ hn4)
  have hrun' := (receiveAndDispatch_ok bits isWS s shortFrame (by decide)).trans hrun
  refine ⟨s', _, hrun', ?_, ?_⟩
  · rw [hhbo]
    have : shortFrame.length = 5 := rfl
    omega
  · rw [htot, hhbo]
    rfl

/-! ## The control listener -/

theorem mapOk_init : MapOk s_ledTypeToEnum := by
  refine ⟨by decide, ?_⟩
  intro key v hv hne
  unfold s_ledTypeToEnum at hv
  by_cases h1 : key = ascii "WS281X"
  · subst h1
    simp only [List.lookup_cons_self, Option.some.injEq] at hv
    exact hv.symm
  · have hb1 : (key == ascii "WS281X") = false := by simpa using h1
    have hb2 : (key == ascii "SK9822") = false := by simpa using hne
    simp [List.lookup_cons, hb1, hb2] at hv

theorem mapIndex_spec (m : List (List Byte × Int)) (key : List Byte) (hm : MapOk m) :
    MapOk (mapIndex m key).1
      ∧ (mapIndex m key).2 = if key = ascii "SK9822" then TYPE_SK9822 else TYPE_WS281X := by
  unfold mapIndex
  cases hl : m.lookup key with
  | some v =>
    refine ⟨hm, ?_⟩
    by_cases hk : key = ascii "SK9822"
    · subst hk
      rw [hm.1] at hl
      simp only [if_true]
      exact (Option.some.inj hl).symm
    · simp only [if_neg hk]
      exact hm.2 key v hl hk
  | none =>
    have hk : key ≠ ascii "SK9822" := by
      intro h
      rw [h, hm.1] at hl
      exact Option.noConfusion hl
    refine ⟨⟨?_, ?_⟩, ?_⟩
    · simp [List.lookup_append, hm.1, Option.or]
    · intro key' v hv hne
      simp only [List.lookup_append] at hv
      cases hl' : m.lookup key' with
      | some w =>
        rw [hl'] at hv
        simp only [Option.or, Option.some.injEq] at hv
        subst hv
        exact hm.2 key' w hl' hne
      | none =>
        rw [hl'] at hv
        simp only [Option.or, List.lookup_cons, List.lookup_nil] at hv
        split at hv
        · simp only [Option.some.injEq] at hv
          exact hv.symm
        · exact Option.noConfusion hv
    · simp only [if_neg hk]
      rfl

theorem step_mapOk (st : TypeListener) (ret : Int) (message : List Byte)
    (hm : MapOk st.ledTypeToEnum) : MapOk (st.step ret message).1.ledTypeToEnum := by
  unfold TypeListener.step
  split
  · exact hm
  · simp only
    split
    · exact (mapIndex_spec _ _ hm).1
    · exact hm

theorem run_mapOk (hist : List (Int × List Byte)) : ∀ (st : TypeListener),
    MapOk st.ledTypeToEnum → MapOk (st.run hist).ledTypeToEnum := by
  induction hist with
  | nil => intro st hm; exact hm
  | cons x rest ih =>
    intro st hm
    obtain ⟨ret, message⟩ := x
    exact ih _ (step_mapOk st ret message hm)

theorem switchWsOut_of_eq (g : GpioOutSwitcher) (X : Bool) (h : g.m_isWs = X) :
    g.switchWsOut X = g := by
  unfold GpioOutSwitcher.switchWsOut
  rw [if_pos h]

/-! ## The claims -/

/-- C1: header decode of a well-formed frame.  For a received datagram that fits the buffer
`message`, with `n ≤ 6` header entries free of 0xFF bytes followed by the two 0xFF bytes,
receive, decode and dispatch complete without fault, the table holds
`byte[2k] + 256 * byte[2k+1]` for every `k < n`, `headerByteOffset` is `2n + 2`, `chan_cntr`
after clamping is `min n 2`, and every write goes to a channel below `min n 2`. -/
theorem C1_header_decode (bits : Nat) (isWS : Nat → Nat → Bool) (s : MainState)
    (dgram : List Byte) (n : Nat) (h : WellFormed dgram n)
    (hcap : dgram.length ≤ MAX_SENDBUFFER_SIZE) :
    ∃ s' out, receiveAndDispatch bits isWS s dgram = .ok (s', out)
      ∧ (∀ k, k < n → s'.ledsInChannel k
            = (dgram.getD (2 * k) 0).val + 256 * (dgram.getD (2 * k + 1) 0).val)
      ∧ s'.headerByteOffset = 2 * n + 2
      ∧ s'.chan_cntr = min n 2
      ∧ (∀ e, e ∈ out → ∃ c, c < min n 2 ∧ e.pixelChannel = some c) := by
  have hlen : 2 * n + 2 ≤ dgram.length := h.2.2.1
  obtain ⟨s', hrun, hhbo, -, hcc, -, -, -, -, -, hleds, -, -, -⟩ :=
    decodeAndDispatch_run bits isWS (s.holding dgram) n h.1
      (scanStops_of_wellFormed s.message dgram n h)
      (dispatchInBounds_of_fits bits dgram.length (n * 2 + 2) _ (by omega) hcap _ 0 0)
  have hrun' := (receiveAndDispatch_ok bits isWS s dgram hcap).trans hrun
  refine ⟨s', _, hrun', ?_, by omega, hcc, ?_⟩
  · intro k hk
    rw [hleds k hk]
    exact entryValue_stored s.message dgram k (by omega)
  · intro e he
    obtain ⟨c, -, h2, h3⟩ := mem_dispatchEvents_pixelChannel _ _ _ _ _ _ _ _ e he
    exact ⟨c, by simpa [MAX_CHANNELS] using h2, h3⟩

/-- C1, at the frame `[0x0A,0x00,0x05,0x00,0xFF,0xFF,...]` (table `[10, 5]`, offset 6) and at
a frame with four entries (offset 10, two channels dispatched). -/
theorem C1_header_decode_witness :
    (WellFormed headerParseFrame 2 ∧ headerParseFrame.length ≤ MAX_SENDBUFFER_SIZE ∧
      ∃ s' out, receiveAndDispatch 32 (fun _ _ => true) MainState.zero headerParseFrame
          = .ok (s', out)
        ∧ s'.ledsInChannel 0 = 10 ∧ s'.ledsInChannel 1 = 5 ∧ s'.headerByteOffset = 6)
    ∧ (WellFormed fourEntryFrame 4 ∧ fourEntryFrame.length ≤ MAX_SENDBUFFER_SIZE ∧
      ∃ s' out, receiveAndDispatch 32 (fun _ _ => true) MainState.zero fourEntryFrame
          = .ok (s', out)
        ∧ s'.headerByteOffset = 10 ∧ s'.chan_cntr = 2
        ∧ ∀ e, e ∈ out → ∃ c, c < 2 ∧ e.pixelChannel = some c) := by
  refine ⟨⟨by decide, by decide, ?_⟩, ⟨by decide, by decide, ?_⟩⟩
  · obtain ⟨s', out, hrun, hleds, hhbo, -, -⟩ :=
      C1_header_decode 32 (fun _ _ => true) MainState.zero headerParseFrame 2 (by decide)
        (by decide)
    exact ⟨s', out, hrun, hleds 0 (by decide), hleds 1 (by decide), hhbo⟩
  · obtain ⟨s', out, hrun, -, hhbo, hcc, hch⟩ :=
      C1_header_decode 32 (fun _ _ => true) MainState.zero fourEntryFrame 4 (by decide)
        (by decide)
    exact ⟨s', out, hrun, hhbo, hcc, hch⟩

/-- C2: truncated payload.  For a well-formed frame that fits the buffer `message` and whose
length fits `size_t`, with `T = (L - (2n+2)) / 3` and `off_k` the sum of the counts declared
before channel `k`, receive, decode and dispatch complete without fault, the writes to a
dispatched channel `k < min n 2` are exactly the sink indices
`0, 1, ..., min (c_k) (T - off_k) - 1` in this order, no write goes to another channel, and
every event of the dispatch is a pixel write. -/
theorem C2_truncated_payload (bits : Nat) (isWS : Nat → Nat → Bool) (s : MainState)
    (dgram : List Byte) (n : Nat) (h : WellFormed dgram n)
    (hcap : dgram.length ≤ MAX_SENDBUFFER_SIZE) (hbits : dgram.length < 2 ^ bits) :
    ∃ s' out, receiveAndDispatch bits isWS s dgram = .ok (s', out)
      ∧ (∀ k, k < min n 2 → pixelIndicesOf k out
          = List.range (min (declared dgram k)
              ((dgram.length - (2 * n + 2)) / 3 - offsetOf dgram k)))
      ∧ (∀ k, min n 2 ≤ k → pixelIndicesOf k out = [])
      ∧ (∀ e, e ∈ out → e.pixelChannel ≠ none) := by
  obtain ⟨s', hrun, -, -, -, -⟩ :=
    receiveAndDispatch_wellFormed bits isWS s dgram n h hcap hbits
  refine ⟨s', _, hrun, ?_, ?_, ?_⟩
  · intro k hk
    rw [pixelIndicesOf_frameEvents, if_pos (by simpa [MAX_CHANNELS] using hk)]
    rfl
  · intro k hk
    rw [pixelIndicesOf_frameEvents, if_neg (by simp only [MAX_CHANNELS]; omega)]
  · intro e he
    obtain ⟨k, j, -, -, rfl⟩ := mem_frameEvents isWS dgram n e he
    rw [framePixel_pixelChannel]
    exact Option.some_ne_none _

/-- C2, at a frame that declares 100 LEDs for channel 0 and carries 10 triples: 10 pixels
go to channel 0 and none to channel 1. -/
theorem C2_truncated_payload_witness :
    WellFormed truncatedFrame 2 ∧ truncatedFrame.length ≤ MAX_SENDBUFFER_SIZE
    ∧ truncatedFrame.length < 2 ^ 32
    ∧ ∃ s' out, receiveAndDispatch 32 (fun _ _ => true) MainState.zero truncatedFrame
          = .ok (s', out)
        ∧ pixelIndicesOf 0 out = [0, 1, 2, 3, 4, 5, 6, 7, 8, 9]
        ∧ pixelIndicesOf 1 out = [] := by
  refine ⟨by decide, by decide, by decide, ?_⟩
  obtain ⟨s', out, hrun, hin, -, -⟩ :=
    C2_truncated_payload 32 (fun _ _ => true) MainState.zero truncatedFrame 2
      (by decide) (by decide) (by decide)
  refine ⟨s', out, hrun, ?_, ?_⟩
  · rw [hin 0 (by decide)]
    decide
  · rw [hin 1 (by decide)]
    decide

/-- C3: offset bookkeeping.  For a well-formed frame that fits the buffer `message` and whose
length fits `size_t`, receive, decode and dispatch complete without fault, the read window
of channel 0 starts at triple 0 and that of channel 1 at the count declared for channel 0,
and the events of the dispatch are exactly the writes, for a dispatched channel `k` and an
index `j` below the number of pixels written to it, of the pixel at index `j` of channel `k`
built from the payload bytes `3 * (off_k + j)`, `+ 1`, `+ 2` as R, G, B: stored as
`R * 65536 + G * 256 + B` on the one-wire path and passed as `R, G, B` to `writeLed` on the
serial-bus path.  These three bytes lie inside the received datagram. -/
theorem C3_offset_bookkeeping (bits : Nat) (isWS : Nat → Nat → Bool) (s : MainState)
    (dgram : List Byte) (n : Nat) (h : WellFormed dgram n)
    (hcap : dgram.length ≤ MAX_SENDBUFFER_SIZE) (hbits : dgram.length < 2 ^ bits) :
    ∃ s' out, receiveAndDispatch bits isWS s dgram = .ok (s', out)
      ∧ offsetOf dgram 0 = 0 ∧ offsetOf dgram 1 = declared dgram 0
      ∧ ∀ e, e ∈ out ↔
          ∃ k j, k < min n 2
            ∧ j < min (declared dgram k) ((dgram.length - (2 * n + 2)) / 3 - offsetOf dgram k)
            ∧ 2 * n + 2 + (3 * (offsetOf dgram k + j) + 2) < dgram.length
            ∧ e = if isWS k (offsetOf dgram k + j) then
                    Event.wsLed k j
                      (payloadByte dgram n (3 * (offsetOf dgram k + j)) * 65536
                        + payloadByte dgram n (3 * (offsetOf dgram k + j) + 1) * 256
                        + payloadByte dgram n (3 * (offsetOf dgram k + j) + 2))
                  else
                    Event.spiWriteLed k j
                      (payloadByte dgram n (3 * (offsetOf dgram k + j)))
                      (payloadByte dgram n (3 * (offsetOf dgram k + j) + 1))
                      (payloadByte dgram n (3 * (offsetOf dgram k + j) + 2)) := by
  obtain ⟨s', hrun, -, -, -, -⟩ :=
    receiveAndDispatch_wellFormed bits isWS s dgram n h hcap hbits
  have hlen : 2 * n + 2 ≤ dgram.length := h.2.2.1
  have hT : 3 * ((dgram.length - (2 * n + 2)) / 3) ≤ dgram.length - (2 * n + 2) :=
    Nat.mul_div_le _ _
  refine ⟨s', _, hrun, offsetOf_zero dgram, offsetOf_one dgram, ?_⟩
  intro e
  rw [mem_frameEvents_iff]
  constructor
  · rintro ⟨k, j, hk, hj, rfl⟩
    have hj' : j < min (declared dgram k)
        ((dgram.length - (2 * n + 2)) / 3 - offsetOf dgram k) := hj
    exact ⟨k, j, by simpa [MAX_CHANNELS] using hk, hj', by omega, rfl⟩
  · rintro ⟨k, j, hk, hj, -, rfl⟩
    exact ⟨k, j, by simpa [MAX_CHANNELS] using hk, hj, rfl⟩

/-- C3, at a frame with counts 1 and 2 and three triples: channel 1 reads from triple 1 on,
and its pixel 0 is built from the payload bytes 3, 4, 5. -/
theorem C3_offset_bookkeeping_witness :
    WellFormed twoChannelFrame 2 ∧ twoChannelFrame.length ≤ MAX_SENDBUFFER_SIZE
    ∧ twoChannelFrame.length < 2 ^ 32
    ∧ ∃ s' out, receiveAndDispatch 32 (fun k _ => decide (k = 0)) MainState.zero
          twoChannelFrame = .ok (s', out)
        ∧ offsetOf twoChannelFrame 1 = 1
        ∧ Event.wsLed 0 0 (11 * 65536 + 12 * 256 + 13) ∈ out
        ∧ Event.spiWriteLed 1 0 21 22 23 ∈ out
        ∧ Event.spiWriteLed 1 1 31 32 33 ∈ out := by
  refine ⟨by decide, by decide, by decide, ?_⟩
  obtain ⟨s', out, hrun, -, h1, hmem⟩ :=
    C3_offset_bookkeeping 32 (fun k _ => decide (k = 0)) MainState.zero twoChannelFrame 2
      (by decide) (by decide) (by decide)
  refine ⟨s', out, hrun, by rw [h1]; decide, ?_, ?_, ?_⟩
  · exact (hmem _).2 ⟨0, 0, by decide, by decide, by decide, by decide⟩
  · exact (hmem _).2 ⟨1, 0, by decide, by decide, by decide, by decide⟩
  · exact (hmem _).2 ⟨1, 1, by decide, by decide, by decide, by decide⟩

/-- C4: asymmetric termination of the header scan.  For a received datagram that fits the
buffer `message`: when entry `k ≤ 6` is the first header pair of the datagram with a 0xFF
byte, first or second, the scan stops there: the entries below `k` are decoded, the table is
untouched from entry `k` on, and the payload offset is `2k + 2`.  For `k = 0`, which covers
every datagram whose first byte is 0xFF whatever the second, no channel is decoded, the
offset is 2, nothing is written and `max_leds_in_chan` is 0.  At any position inside the
buffer, a scan that stands at a pair with a 0xFF byte stops there with its state unchanged. -/
theorem C4_asymmetric_termination (bits : Nat) (isWS : Nat → Nat → Bool) (s : MainState)
    (dgram : List Byte) (k : Nat) (_hL : 4 < dgram.length)
    (hcap : dgram.length ≤ MAX_SENDBUFFER_SIZE) (hk : k ≤ 6)
    (hin : 2 * k + 1 < dgram.length)
    (hbefore : ∀ j, j < k → dgram.getD (2 * j) 0 ≠ 0xff ∧ dgram.getD (2 * j + 1) 0 ≠ 0xff)
    (hff : dgram.getD (2 * k) 0 = 0xff ∨ dgram.getD (2 * k + 1) 0 = 0xff) :
    ∃ s' out, receiveAndDispatch bits isWS s dgram = .ok (s', out)
      ∧ s'.headerByteOffset = 2 * k + 2
      ∧ s'.chan_cntr = min k 2
      ∧ (∀ j, j < k → s'.ledsInChannel j = declared dgram j)
      ∧ (∀ j, k ≤ j → s'.ledsInChannel j = s.ledsInChannel j)
      ∧ (k = 0 → out = [] ∧ s'.max_leds_in_chan = 0)
      ∧ (∀ (fuel : Nat) (t : MainState), t.chan_cntr * 2 + 1 < MAX_SENDBUFFER_SIZE →
          t.message (t.chan_cntr * 2) = 0xff ∨ t.message (t.chan_cntr * 2 + 1) = 0xff →
          headerScan fuel t = .ok t) := by
  have hstops : ScanStops (stored s.message dgram) dgram.length k := by
    constructor
    · intro j hj
      refine ⟨by omega, ?_, ?_⟩
      · rw [stored_lt s.message dgram (by omega : j * 2 < dgram.length), Nat.mul_comm j 2]
        exact (hbefore j hj).1
      · rw [stored_lt s.message dgram (by omega : j * 2 + 1 < dgram.length), Nat.mul_comm j 2]
        exact (hbefore j hj).2
    · intro hg
      have h0 := hg.2.1
      have h1 := hg.2.2
      rw [stored_lt s.message dgram (by omega : k * 2 < dgram.length), Nat.mul_comm k 2] at h0
      rw [stored_lt s.message dgram (by omega : k * 2 + 1 < dgram.length),
        Nat.mul_comm k 2] at h1
      rcases hff with h | h
      · exact h0 h
      · exact h1 h
  obtain ⟨s', hrun, hhbo, -, hcc, -, -, -, -, -, hleds, hhigh, -, hmax⟩ :=
    decodeAndDispatch_run bits isWS (s.holding dgram) k hk hstops
      (dispatchInBounds_of_fits bits dgram.length (k * 2 + 2) _ (by omega) hcap _ 0 0)
  have hrun' := (receiveAndDispatch_ok bits isWS s dgram hcap).trans hrun
  refine ⟨s', _, hrun', by omega, hcc, ?_, hhigh, ?_, ?_⟩
  · intro j hj
    rw [hleds j hj]
    exact entryValue_stored s.message dgram j (by omega)
  · intro hk0
    subst hk0
    refine ⟨rfl, ?_⟩
    rcases hmax with h | ⟨j, hj, -⟩
    · exact h
    · omega
  · intro fuel t _ ht
    apply headerScan_stop
    intro hg
    rcases ht with h | h
    · exact hg.2.1 h
    · exact hg.2.2 h

/-- C4, at a frame whose first header pair is 0xFF 0x00. -/
theorem C4_asymmetric_termination_witness :
    4 < sentinelAtStartFrame.length ∧ sentinelAtStartFrame.length ≤ MAX_SENDBUFFER_SIZE
    ∧ sentinelAtStartFrame.getD 0 0 = 0xff ∧ sentinelAtStartFrame.getD 1 0 = 0x00
    ∧ ∃ s' out, receiveAndDispatch 32 (fun _ _ => true) MainState.zero sentinelAtStartFrame
          = .ok (s', out)
        ∧ s'.headerByteOffset = 2 ∧ s'.chan_cntr = 0 ∧ out = []
        ∧ s'.max_leds_in_chan = 0 := by
  refine ⟨by decide, by decide, by decide, by decide, ?_⟩
  obtain ⟨s', out, hrun, hhbo, hcc, -, -, h0, -⟩ :=
    C4_asymmetric_termination 32 (fun _ _ => true) MainState.zero sentinelAtStartFrame 0
      (by decide) (by decide) (by decide) (by decide) (by decide) (by decide)
  exact ⟨s', out, hrun, hhbo, hcc, (h0 rfl).1, (h0 rfl).2⟩

/-- C5: the code at a frame whose first entry declares 255 LEDs (bytes 0xFF 0x00), followed
by an entry declaring 1 LED, the 0xFFFF pair and one triple.  The scan stops at the first
entry: nothing is decoded, the payload offset is 2 instead of 6, and nothing is written. -/
theorem C5_count_255_ends_header :
    declared count255Frame 0 = 255 ∧ declared count255Frame 1 = 1
    ∧ count255Frame.getD 4 0 = 0xff ∧ count255Frame.getD 5 0 = 0xff
    ∧ ∃ s' out, receiveAndDispatch 32 (fun _ _ => true) MainState.zero count255Frame
          = .ok (s', out)
        ∧ s'.headerByteOffset = 2 ∧ s'.chan_cntr = 0
        ∧ s'.ledsInChannel 0 = 0 ∧ s'.ledsInChannel 1 = 0 ∧ out = [] := by
  refine ⟨by decide, by decide, by decide, by decide, ?_⟩
  obtain ⟨s', hrun, hhbo, -, hcc, -, -, -, -, -, -, hhigh, -, -⟩ :=
    decodeAndDispatch_run 32 (fun _ _ => true) (MainState.zero.holding count255Frame) 0
      (by decide) (by decide) True.intro
  have hrun' :=
    (receiveAndDispatch_ok 32 (fun _ _ => true) MainState.zero count255Frame (by decide)).trans
      hrun
  exact ⟨s', _, hrun', hhbo, hcc, hhigh 0 (Nat.le_refl _), hhigh 1 (by decide), rfl⟩

/-- C6: mode switch idempotence.  A second `switchWsOut(X)` right after a first leaves the
whole switcher state as it is: `m_isWs`, which is `X`, both pin levels, the count of pin
writes and the time slept.  The two calls together write no pin and sleep 0 ms when `m_isWs`
was `X` before the first call, and write two pins and sleep 500 ms otherwise. -/
theorem C6_switch_idempotent (g : GpioOutSwitcher) (X : Bool) :
    (g.switchWsOut X).switchWsOut X = g.switchWsOut X
      ∧ ((g.switchWsOut X).switchWsOut X).m_isWs = X
      ∧ ((g.switchWsOut X).switchWsOut X).pinWrites
          = (if g.m_isWs = X then g.pinWrites else g.pinWrites + 2)
      ∧ ((g.switchWsOut X).switchWsOut X).sleptMs
          = (if g.m_isWs = X then g.sleptMs else g.sleptMs + 500)
      ∧ ((g.switchWsOut X).switchWsOut X).sleptMs ≤ g.sleptMs + 500 := by
  have hX : (g.switchWsOut X).m_isWs = X := by
    unfold GpioOutSwitcher.switchWsOut
    split
    · assumption
    · rfl
  have hidem : (g.switchWsOut X).switchWsOut X = g.switchWsOut X :=
    switchWsOut_of_eq _ X hX
  rw [hidem]
  refine ⟨rfl, hX, ?_, ?_, ?_⟩
  · unfold GpioOutSwitcher.switchWsOut
    split <;> rfl
  · unfold GpioOutSwitcher.switchWsOut
    split <;> rfl
  · unfold GpioOutSwitcher.switchWsOut
    split
    · omega
    · exact Nat.le_refl _

/-- C7: the code on the one-wire path at a frame that declares 2000 LEDs for channel 0 and
carries 2000 triples.  The dispatch stores at the indices 0 to 1999 of channel 0, so 1000
stores go past the `LED_COUNT_WS = 1000` LEDs of the channel. -/
theorem C7_store_past_capacity :
    ∃ s' out, receiveAndDispatch 32 (fun _ _ => true) MainState.zero overCapacityFrame
        = .ok (s', out)
      ∧ pixelIndicesOf 0 out = List.range 2000
      ∧ (∃ e, e ∈ out ∧ e.pixelChannel = some 0 ∧ e.pixelIndex = some 1999
          ∧ e.sinkCapacity = some LED_COUNT_WS)
      ∧ ¬ 1999 < LED_COUNT_WS := by
  obtain ⟨s', hrun, -, -, -, -⟩ :=
    receiveAndDispatch_wellFormed 32 (fun _ _ => true) MainState.zero overCapacityFrame 1
      overCapacityFrame_wellFormed (by rw [overCapacityFrame_length]; decide)
      (by rw [overCapacityFrame_length]; decide)
  refine ⟨s', _, hrun, ?_, ?_, by decide⟩
  · rw [pixelIndicesOf_frameEvents, if_pos (by decide), overCapacityFrame_writeCount]
  · refine ⟨framePixel (fun _ _ => true) overCapacityFrame 1 0 (offsetOf overCapacityFrame 0) 1999,
      ?_, framePixel_pixelChannel _ _ _ _ _ _, framePixel_pixelIndex _ _ _ _ _ _, ?_⟩
    · exact (mem_frameEvents_iff _ _ _ _).2
        ⟨0, 1999, by decide, by rw [overCapacityFrame_writeCount]; decide, rfl⟩
    · unfold framePixel
      rfl

/-- C8, as the claim states it, fails: the token "ABCDEF" is neither "WS281X" nor "SK9822"
and differs from the token applied before, and the value stored into `isWS` is true. -/
theorem C8_unrecognized_token_counterexample :
    ascii "ABCDEF" ≠ ascii "WS281X" ∧ ascii "ABCDEF" ≠ ascii "SK9822"
      ∧ (ascii "ABCDEF").length = 6
      ∧ ascii "ABCDEF" ≠ TypeListener.init.currentType
      ∧ (TypeListener.init.step 6 (ascii "ABCDEF")).2 = some true
      ∧ (TypeListener.init.step 6 (ascii "ABCDEF")).2 ≠ some false := by
  decide

/-- C8, amended: after any sequence of receptions, a six-byte token that differs from the
token applied before stores true into `isWS` unless it is "SK9822", which stores false.  So
"WS281X" and every unrecognized token select the one-wire path. -/
theorem C8_token_store (hist : List (Int × List Byte)) (ret : Int) (message : List Byte)
    (hret : 6 ≤ ret) (hlen : message.length = 6)
    (hnew : message ≠ (TypeListener.init.run hist).currentType) :
    ((TypeListener.init.run hist).step ret message).2
      = some (if message = ascii "SK9822" then false else true) := by
  have hm : MapOk (TypeListener.init.run hist).ledTypeToEnum :=
    run_mapOk hist TypeListener.init mapOk_init
  have htake : message.take 6 = message := by
    rw [← hlen]
    exact List.take_length message
  have hne : (TypeListener.init.run hist).currentType ≠ message := fun h => hnew h.symm
  unfold TypeListener.step
  rw [if_neg (by omega)]
  simp only [htake, if_pos hne, (mapIndex_spec _ message hm).2]
  by_cases hk : message = ascii "SK9822"
  · simp only [if_pos hk]
    rfl
  · simp only [if_neg hk]
    rfl

/-- C8 amended, after "SK9822" has been applied: "ABCDEF" stores true. -/
theorem C8_token_store_witness :
    (6 : Int) ≤ 6 ∧ (ascii "ABCDEF").length = 6
      ∧ ascii "ABCDEF" ≠ (TypeListener.init.run [(6, ascii "SK9822")]).currentType
      ∧ ((TypeListener.init.run [(6, ascii "SK9822")]).step 6 (ascii "ABCDEF")).2 = some true :=
  ⟨by decide, by decide, by decide,
    C8_token_store [(6, ascii "SK9822")] 6 (ascii "ABCDEF") (by decide) (by decide) (by decide)⟩

/-- C9: minimum-size drop.  When `PeekReceive` returns at most 4, the iteration ends without
any event (no pixel write, no render, no send, no pacing sleep), the loop goes on, and the
decoded table, `chan_cntr`, `max_leds_in_chan`, the offsets and the other variables of the
decode and dispatch keep their values. -/
theorem C9_minimum_size_drop (bits : Nat) (inp : Inputs) (s : MainState) (h : inp.peek ≤ 4) :
    ∃ s', loopBody bits inp s = .ok (s', [], true)
      ∧ s'.ledsInChannel = s.ledsInChannel ∧ s'.chan_cntr = s.chan_cntr
      ∧ s'.max_leds_in_chan = s.max_leds_in_chan
      ∧ s'.headerByteOffset = s.headerByteOffset ∧ s'.chanPixelOffset = s.chanPixelOffset
      ∧ s'.total_leds_num = s.total_leds_num ∧ s'.pixels = s.pixels
      ∧ s'.message = s.message ∧ s'.i = s.i ∧ s'.curChannel = s.curChannel := by
  have hn : ¬ inp.peek > 4 := by omega
  refine ⟨{ s with gpioSwitcher := s.gpioSwitcher.switchWsOut inp.isWSRoute,
                   received := inp.peek }, ?_, rfl, rfl, rfl, rfl, rfl, rfl, rfl, rfl, rfl, rfl⟩
  unfold loopBody
  simp only [if_neg hn]

/-- C9, at an iteration in which `PeekReceive` returns 4. -/
theorem C9_minimum_size_drop_witness :
    tooShortInputs.peek ≤ 4
      ∧ ∃ s', loopBody 32 tooShortInputs MainState.zero = .ok (s', [], true)
        ∧ s'.chan_cntr = MainState.zero.chan_cntr
        ∧ s'.headerByteOffset = MainState.zero.headerByteOffset := by
  refine ⟨by decide, ?_⟩
  obtain ⟨s', hrun, -, hcc, -, hhbo, -⟩ :=
    C9_minimum_size_drop 32 tooShortInputs MainState.zero (by decide)
  exact ⟨s', hrun, hcc, hhbo⟩

/-- C10: the code at a five-byte datagram without 0xFF byte, received into a buffer of zero
bytes.  The scan reads four entries, among them the bytes 5, 6 and 7 behind the datagram,
`headerByteOffset` is 10, `received - headerByteOffset` wraps around, and two pixels are
written from bytes behind the datagram, which carries no triple. -/
theorem C10_scan_leaves_datagram :
    shortFrame.length = 5
    ∧ ∃ s' out, receiveAndDispatch 32 (fun _ _ => true) MainState.zero shortFrame
          = .ok (s', out)
        ∧ s'.headerByteOffset = 10
        ∧ s'.total_leds_num = (2 ^ 32 - 5) / 3
        ∧ out = [Event.wsLed 0 0 0, Event.wsLed 1 0 0] := by
  refine ⟨rfl, ?_⟩
  have hmin : min 4 MAX_CHANNELS = 2 := by decide
  obtain ⟨s', hrun, hhbo, -, -, -, htot, -, -, -, hleds, -, -, -⟩ :=
    decodeAndDispatch_run 32 (fun _ _ => true) (MainState.zero.holding shortFrame) 4
      (by decide) shortFrame_scanStops
      (by rw [hmin]; exact shortFrame_inBounds MainState.zero 4 _ (Nat.le_refl _))
  have h0 : s'.ledsInChannel 0 = 1 := by rw [hleds 0 (by decide)]; decide
  have h1 : s'.ledsInChannel 1 = 1 := by rw [hleds 1 (by decide)]; decide
  have hrun' :=
    (receiveAndDispatch_ok 32 (fun _ _ => true) MainState.zero shortFrame (by decide)).trans hrun
  rw [hmin] at hrun'
  simp only [dispatchEvents, h0, h1] at hrun'
  refine ⟨s', _, hrun', hhbo, ?_, ?_⟩
  · rw [htot]
    decide
  · decide

end LmListener
